import Mathlib

/-! MultiMC5: the version-patch resolution engine.

A shallow embedding of the patch loader (`VersionBuilder`, `OneSixProfileStrategy`), of the
patch list controller (`MinecraftProfile`) and of the comparisons of `SolderVersion`, followed
by theorems about them.

Conventions of the embedding:

* `QString` is `String`, `QList` is `List`, C++ `int` is `Int` (no arithmetic in the modelled
  functions can leave the 32-bit range on an index that passes the range check);
* an operation that mutates the profile and may throw returns an `Outcome`: the state at the
  moment of return or of the throw, and the exception if one was thrown;
* objects that a function changes through a reference (`SolderVersion`) live in a store
  indexed by address, and the function returns the store afterwards;
* code that is not part of these sources (the version catalog, `VersionFile::fromJson`,
  the virtual methods of `ProfilePatch`, the clock) is a field of `Collaborators`, so every
  theorem holds for every behaviour of them.
-/

namespace MultiMC

/-! ## JSON values and files -/

/-- A JSON value as `QJsonValue` exposes it; a number is the rational it denotes. -/
inductive QJsonValue where
  | null
  | undefined
  | bool (b : Bool)
  | double (d : ℚ)
  | string (s : String)
  | array (items : List QJsonValue)
  | object (members : List (String × QJsonValue))

/-- `QJsonObject::value(key)`: the member stored under `key`, `undefined` when there is none. -/
def QJsonValue.value : List (String × QJsonValue) → String → QJsonValue
  | [], _ => .undefined
  | (k, v) :: rest, key => if k = key then v else QJsonValue.value rest key

/-- The exceptions of the sources: `JSONValidationError`, `VersionBuildError` and its subclass
`VersionIncomplete`, each with its message. -/
inductive MMCError where
  | JSONValidationError (cause : String)
  | VersionBuildError (cause : String)
  | VersionIncomplete (component : String)
deriving DecidableEq

/-- What `QFile::open`, `readAll` and `QJsonDocument::fromJson` make of an existing file. -/
inductive FileData where
  | unreadable
  | invalidJson
  | json (doc : QJsonValue)

/-- Modelled from the spec: `MMCJson::ensureObject` (MMCJson.cpp is not among the sources); the
order file is "fixed schema" JSON whose top level is an object, anything else is a format error. -/
def MMCJson.ensureObject : QJsonValue → Except MMCError (List (String × QJsonValue))
  | .object members => .ok members
  | _ => .error (.JSONValidationError "document is not an object")

/-- Modelled from the spec: `MMCJson::ensureInteger` (MMCJson.cpp is not among the sources); it
accepts a JSON number without fractional part and throws on everything else, a missing member
included. -/
def MMCJson.ensureInteger : QJsonValue → String → Except MMCError Int
  | .double d, what =>
    if d.den = 1 then .ok d.num else .error (.JSONValidationError (what ++ " is not an integer"))
  | _, what => .error (.JSONValidationError (what ++ " is not an integer"))

/-- Modelled from the spec: `MMCJson::ensureArray` (MMCJson.cpp is not among the sources). -/
def MMCJson.ensureArray : QJsonValue → Except MMCError (List QJsonValue)
  | .array items => .ok items
  | _ => .error (.JSONValidationError "value is not an array")

/-- Modelled from the spec: `MMCJson::ensureString` (MMCJson.cpp is not among the sources). -/
def MMCJson.ensureString : QJsonValue → Except MMCError String
  | .string s => .ok s
  | _ => .error (.JSONValidationError "value is not a string")

/-! ## Patches, the profile, the instance on disk -/

/-- `QString::endsWith`. -/
def QString.endsWith (s suffix : String) : Bool := suffix.data.isSuffixOf s.data

/-- `QString::left(n)`: the first `n` characters. -/
def QString.left (s : String) (n : Nat) : String := ⟨s.data.take n⟩

/-- `typedef QStringList PatchOrder`. -/
abbrev PatchOrder := List String

/-- The classes behind a `ProfilePatchPtr`. -/
inductive PatchKind where
  | MinecraftVersion
  | VersionFile
deriving DecidableEq

/-- What the sources observe of a `ProfilePatch`: its dynamic type, `getPatchID`,
`getPatchName`, `getPatchVersion`, `getOrder`, `getPatchFilename`, `getJarMods` (the jar-mod
file names) and the vanilla flag. -/
structure ProfilePatch where
  kind : PatchKind
  fileId : String
  name : String
  version : String
  order : Int
  filename : String
  jarMods : List String
  isVanilla : Bool
deriving DecidableEq

/-- `ProfilePatch::setOrder`. -/
def ProfilePatch.setOrder (patch : ProfilePatch) (order : Int) : ProfilePatch :=
  { patch with order := order }

/-- `VersionFile::setVanilla`. -/
def ProfilePatch.setVanilla (patch : ProfilePatch) (state : Bool) : ProfilePatch :=
  { patch with isVanilla := state }

/-- What `getActiveNormalLibs` observes of a `OneSixLibrary`. -/
structure OneSixLibrary where
  rawName : String
  isActive : Bool
  isNative : Bool
deriving DecidableEq

/-- The `MinecraftProfile`: the ordered patch list and the merged fields. -/
structure MinecraftProfile where
  VersionPatches : List ProfilePatch
  id : String
  m_updateTimeString : String
  m_releaseTimeString : String
  type : String
  assets : String
  processArguments : String
  minecraftArguments : String
  vanillaProcessArguments : String
  vanillaMinecraftArguments : String
  minimumLauncherVersion : Int
  mainClass : String
  appletClass : String
  libraries : List OneSixLibrary
  tweakers : List String
  jarMods : List String
  traits : List String

/-- The date parts `finalize` reads from `QDate::currentDate()`. -/
structure QDate where
  month : Nat
  day : Nat
deriving DecidableEq

/-- The code these sources call but do not contain. -/
structure Collaborators where
  /-- `MMC->minecraftlist()->findVersion(id)` cast to `ProfilePatch`; `none` is the null pointer. -/
  findVersion : String → Option ProfilePatch
  /-- The bundled resource `:/versions/LWJGL/2.9.1.json`. -/
  lwjglResource : Option FileData
  /-- `VersionFile::fromJson(doc, filename, requireOrder, isFTB)`. -/
  fromJson : QJsonValue → String → Bool → Bool → Except MMCError ProfilePatch
  /-- The virtual `ProfilePatch::isMoveable()`. -/
  isMoveable : ProfilePatch → Bool
  /-- `ProfilePatch::applyTo(MinecraftProfile *)`. -/
  applyTo : ProfilePatch → MinecraftProfile → Except MMCError MinecraftProfile
  /-- `QDate::currentDate()`. -/
  currentDate : QDate
  /-- `QString::toLower`. -/
  toLower : String → String
  /-- `QUuid::createUuid().toString()` without the braces: the uuid drawn after `n` earlier
  draws of the same call. -/
  createUuid : Nat → String
  /-- `QFileInfo::completeBaseName` of a path. -/
  completeBaseName : String → String
  /-- `VersionFile::toJson(true)`. -/
  toJson : ProfilePatch → QJsonValue

/-- The part of a `OneSixInstance` the code reads and writes: its intended version and, under
the root of the instance, `order.json`, the `patches` directory and the jar-mods directory,
with the answers of the file system to the operations on them. `patchFile name` is the file
`patches/name` (`none` when `QFileInfo::exists` is false); `patchEntries` is
`entryInfoList("*.json", QDir::Files)` of the directory. -/
structure OneSixInstance where
  intendedVersionId : String
  orderFile : Option FileData
  /-- Whether `QFile::open(QFile::WriteOnly)` on `order.json` succeeds. -/
  orderFileWritable : Bool
  patchFile : String → Option FileData
  patchEntries : List String
  /-- Whether `QFile::remove` succeeds on the existing file `patches/name`. -/
  patchFileRemovable : String → Bool
  /-- Whether `QFile::open(QFile::WriteOnly)` succeeds on the file `patches/name`. -/
  patchFileWritable : String → Bool
  /-- Whether `ensureFolderPathExists` succeeds on the `patches` directory. -/
  patchesDirUsable : Bool
  /-- Whether the jar-mods directory holds a file of this name. -/
  jarModExists : String → Bool
  /-- Whether `QFile::remove` succeeds on the existing jar-mod file of this name. -/
  jarModRemovable : String → Bool
  /-- Whether `ensureFolderPathExists` succeeds on the jar-mods directory. -/
  jarModsDirUsable : Bool
  /-- Whether `QFile::copy` from this source path to a fresh file of the jar-mods directory
  succeeds. -/
  copySucceeds : String → Bool

/-- The profile together with the instance directory it was built from. -/
structure World where
  profile : MinecraftProfile
  inst : OneSixInstance

/-- The state a mutating operation leaves behind, and the exception it threw, if any. -/
structure Outcome (σ : Type) where
  state : σ
  thrown : Option MMCError

/-! ## `QMap<int, V>` -/

/-- A `QMap<int, V>`: its entries in ascending key order. -/
abbrev QMap (V : Type) := List (Int × V)

/-- `QMap::contains`. -/
def QMap.contains {V : Type} (m : QMap V) (key : Int) : Bool :=
  m.any (fun kv => decide (kv.1 = key))

/-- `QMap::insert`: the entry goes to its place in key order and replaces an entry that has the
same key. -/
def QMap.insert {V : Type} (key : Int) (v : V) : QMap V → QMap V
  | [] => [(key, v)]
  | (k, w) :: rest =>
    if key < k then (key, v) :: (k, w) :: rest
    else if key = k then (key, v) :: rest
    else (k, w) :: QMap.insert key v rest

/-- `QMap::keys`: ascending. -/
def QMap.keys {V : Type} (m : QMap V) : List Int := m.map Prod.fst

/-- `QMap::operator[]` on a key, `none` when the map has no such key. -/
def QMap.get {V : Type} : QMap V → Int → Option V
  | [], _ => none
  | (k, w) :: rest, key => if k = key then some w else QMap.get rest key

/-! ## `VersionBuilder` -/

namespace VersionBuilder

/-- `static const int currentOrderFileVersion = 1;` -/
def currentOrderFileVersion : Int := 1

/-- `VersionBuilder::parseJsonFile`: a file that cannot be opened (a missing one included) or is
not JSON throws `JSONValidationError`, otherwise `VersionFile::fromJson` decides. -/
def parseJsonFile (env : Collaborators) (file : Option FileData) (fileName : String)
    (requireOrder : Bool) (isFTB : Bool) : Except MMCError ProfilePatch :=
  match file with
  | none => .error (.JSONValidationError ("Unable to open the version file " ++ fileName))
  | some .unreadable =>
    .error (.JSONValidationError ("Unable to open the version file " ++ fileName))
  | some .invalidJson =>
    .error (.JSONValidationError ("Unable to process the version file " ++ fileName))
  | some (.json doc) => env.fromJson doc fileName requireOrder isFTB

/-- The loop `for (auto item : orderArray) order.append(MMCJson::ensureString(item));`. -/
def readOrderItems : List QJsonValue → PatchOrder → Except MMCError PatchOrder
  | [], order => .ok order
  | item :: rest, order =>
    match MMCJson.ensureString item with
    | .error e => .error e
    | .ok s => readOrderItems rest (order ++ [s])

/-- The `try` block of `readOverrideOrders`. -/
def readOrderDocument (doc : QJsonValue) (order : PatchOrder) : Except MMCError PatchOrder :=
  match MMCJson.ensureObject doc with
  | .error e => .error e
  | .ok obj =>
    match MMCJson.ensureInteger (QJsonValue.value obj "version") "version" with
    | .error e => .error e
    | .ok version =>
      if version ≠ currentOrderFileVersion then
        .error (.JSONValidationError "Invalid order file version, expected 1")
      else
        match MMCJson.ensureArray (QJsonValue.value obj "order") with
        | .error e => .error e
        | .ok orderArray => readOrderItems orderArray order

/-- `VersionBuilder::readOverrideOrders`: the returned flag and the `order` out-parameter. -/
def readOverrideOrders (orderFile : Option FileData) (order : PatchOrder) : Bool × PatchOrder :=
  match orderFile with
  | none => (false, order)
  | some .unreadable => (false, order)
  | some .invalidJson => (false, order)
  | some (.json doc) =>
    match readOrderDocument doc order with
    | .ok order' => (true, order')
    | .error _ => (false, [])

/-- The first loop of `readInstancePatches`: the ids of the order file, in their order. -/
def loadByUserOrder (env : Collaborators) (inst : OneSixInstance) :
    PatchOrder → List ProfilePatch → Outcome (List ProfilePatch)
  | [], patches => ⟨patches, none⟩
  | id :: rest, patches =>
    if id = "net.minecraft" then loadByUserOrder env inst rest patches
    else if id = "org.lwjgl" then loadByUserOrder env inst rest patches
    else if (inst.patchFile (id ++ ".json")).isNone then loadByUserOrder env inst rest patches
    else
      match parseJsonFile env (inst.patchFile (id ++ ".json")) (id ++ ".json") false false with
      | .error e => ⟨patches, some e⟩
      | .ok file =>
        if file.fileId ≠ id then
          ⟨patches, some (.VersionBuildError
            ("load id " ++ id ++ " does not match internal id " ++ file.fileId))⟩
        else loadByUserOrder env inst rest (patches ++ [file])

/-- The second loop of `readInstancePatches`: the directory scan that fills the map `files`. -/
def scanPatches (env : Collaborators) (inst : OneSixInstance) (userOrder : PatchOrder) :
    List String → QMap (String × ProfilePatch) → Except MMCError (QMap (String × ProfilePatch))
  | [], files => .ok files
  | info :: rest, files =>
    match parseJsonFile env (inst.patchFile info) info true false with
    | .error e => .error e
    | .ok file =>
      if file.fileId = "net.minecraft" then scanPatches env inst userOrder rest files
      else if file.fileId = "org.lwjgl" then scanPatches env inst userOrder rest files
      else if file.fileId ∈ userOrder then scanPatches env inst userOrder rest files
      else if QMap.contains files file.order then
        .error (.VersionBuildError (file.fileId ++ " has the same order as "
          ++ ((QMap.get files file.order).map (fun p => p.2.fileId)).getD ""))
      else scanPatches env inst userOrder rest (QMap.insert file.order (info, file) files)

/-- The third loop of `readInstancePatches`: `for (auto order : files.keys())` appends
`files[order].second`. -/
def appendScanned (files : QMap (String × ProfilePatch)) (patches : List ProfilePatch) :
    List ProfilePatch :=
  patches ++ (QMap.keys files).filterMap (fun order => (QMap.get files order).map Prod.snd)

/-- `VersionBuilder::readInstancePatches`, on the patch list of the profile. -/
def readInstancePatches (env : Collaborators) (inst : OneSixInstance)
    (patches : List ProfilePatch) : Outcome (List ProfilePatch) :=
  let userOrder := (readOverrideOrders inst.orderFile []).2
  let byOrder := loadByUserOrder env inst userOrder patches
  match byOrder.thrown with
  | some e => ⟨byOrder.state, some e⟩
  | none =>
    match scanPatches env inst userOrder inst.patchEntries [] with
    | .error e => ⟨byOrder.state, some e⟩
    | .ok files => ⟨appendScanned files byOrder.state, none⟩

end VersionBuilder

/-! ## `MinecraftProfile` -/

namespace MinecraftProfile

/-- `MinecraftProfile::clear`: resets the merged fields; the patch list and the two vanilla
argument fields are not touched. `0xDEADBEAF` is stored in an `int`. -/
def clear (p : MinecraftProfile) : MinecraftProfile :=
  { p with
    id := "", m_updateTimeString := "", m_releaseTimeString := "", type := "", assets := "",
    processArguments := "", minecraftArguments := "",
    minimumLauncherVersion := 0xDEADBEAF - 2 ^ 32,
    mainClass := "", appletClass := "", libraries := [], tweakers := [], jarMods := [],
    traits := [] }

/-- The lambda `finalizeArguments` of `finalize`: the new value of its first argument. -/
def finalizeArguments (env : Collaborators) (minecraftArguments processArguments : String) :
    String :=
  if minecraftArguments ≠ "" then minecraftArguments
  else
    let toCompare := env.toLower processArguments
    if toCompare = "legacy" then " $\x7bauth_player_name\x7d $\x7bauth_session\x7d"
    else if toCompare = "username_session" then
      "--username $\x7bauth_player_name\x7d --session $\x7bauth_session\x7d"
    else if toCompare = "username_session_version" then
      "--username $\x7bauth_player_name\x7d " ++ "--session $\x7bauth_session\x7d "
        ++ "--version $\x7bprofile_name\x7d"
    else minecraftArguments

/-- `MinecraftProfile::finalize`. -/
def finalize (env : Collaborators) (p : MinecraftProfile) : MinecraftProfile :=
  let isAprilFools := env.currentDate.month = 4 ∧ env.currentDate.day = 1
  let assets1 :=
    if QString.endsWith p.assets "_af" ∧ ¬ isAprilFools then
      QString.left p.assets (p.assets.length - 3)
    else p.assets
  let assets2 := if assets1 = "" then "legacy" else assets1
  { p with
    assets := assets2
    vanillaMinecraftArguments :=
      finalizeArguments env p.vanillaMinecraftArguments p.vanillaProcessArguments
    minecraftArguments := finalizeArguments env p.minecraftArguments p.processArguments }

/-- The loop of `reapply`: every patch of the list applies itself to the profile; `applyTo`
works on the merged fields, the patch list stays as it is. -/
def applyAll (env : Collaborators) : List ProfilePatch → MinecraftProfile →
    Outcome MinecraftProfile
  | [], p => ⟨p, none⟩
  | file :: rest, p =>
    match env.applyTo file p with
    | .error e => ⟨p, some e⟩
    | .ok p1 => applyAll env rest { p1 with VersionPatches := p.VersionPatches }

/-- `MinecraftProfile::reapply`. -/
def reapply (env : Collaborators) (p : MinecraftProfile) : Outcome MinecraftProfile :=
  let applied := applyAll env p.VersionPatches (clear p)
  match applied.thrown with
  | some e => ⟨applied.state, some e⟩
  | none => ⟨finalize env applied.state, none⟩

end MinecraftProfile

namespace VersionBuilder

/-- `VersionBuilder::buildInternal` on `m_version`, reading `m_instance`. -/
def buildInternal (env : Collaborators) (inst : OneSixInstance) (m_version : MinecraftProfile) :
    Outcome MinecraftProfile :=
  let v0 := { m_version with VersionPatches := [] }
  match env.findVersion inst.intendedVersionId with
  | none => ⟨v0, some (.VersionIncomplete "net.minecraft")⟩
  | some minecraftPatch =>
    let v1 := { v0 with VersionPatches := v0.VersionPatches ++ [minecraftPatch.setOrder (-2)] }
    match parseJsonFile env env.lwjglResource ":/versions/LWJGL/2.9.1.json" false false with
    | .error e => ⟨v1, some e⟩
    | .ok lwjgl =>
      let lwjglPatch := (lwjgl.setOrder (-1)).setVanilla true
      let v2 := { v1 with VersionPatches := v1.VersionPatches ++ [lwjglPatch] }
      let user := readInstancePatches env inst v2.VersionPatches
      match user.thrown with
      | some e => ⟨{ v2 with VersionPatches := user.state }, some e⟩
      | none => ⟨MinecraftProfile.finalize env { v2 with VersionPatches := user.state }, none⟩

/-- `VersionBuilder::build`. -/
def build (env : Collaborators) (version : MinecraftProfile) (inst : OneSixInstance) :
    Outcome MinecraftProfile :=
  buildInternal env inst version

/-- `VersionBuilder::writeOverrideOrders`: the returned flag and the instance afterwards. The
document written is an object with the members "version" (1) and "order" (the ids). -/
def writeOverrideOrders (inst : OneSixInstance) (order : PatchOrder) : Bool × OneSixInstance :=
  if inst.orderFileWritable then
    (true, { inst with orderFile := some (.json (.object
      [("version", .double currentOrderFileVersion),
       ("order", .array (order.map QJsonValue.string))])) })
  else (false, inst)

end VersionBuilder

/-! ## `OneSixProfileStrategy` -/

namespace OneSixProfileStrategy

/-- `OneSixProfileStrategy::loadDefaultBuiltinPatches`, with `appendPatch` appending to the
patch list of the profile. -/
def loadDefaultBuiltinPatches (env : Collaborators) (inst : OneSixInstance)
    (patches : List ProfilePatch) : Outcome (List ProfilePatch) :=
  match env.findVersion inst.intendedVersionId with
  | none => ⟨patches, some (.VersionIncomplete "net.minecraft")⟩
  | some minecraftPatch =>
    let patches1 := patches ++ [minecraftPatch.setOrder (-2)]
    match VersionBuilder.parseJsonFile env env.lwjglResource ":/versions/LWJGL/2.9.1.json"
        false false with
    | .error e => ⟨patches1, some e⟩
    | .ok lwjgl => ⟨patches1 ++ [(lwjgl.setOrder (-1)).setVanilla true], none⟩

/-- `OneSixProfileStrategy::loadUserPatches`; `ProfileUtils::readOverrideOrders` and
`ProfileUtils::parseJsonFile` are the functions of the same name of `VersionBuilder`. -/
def loadUserPatches (env : Collaborators) (inst : OneSixInstance)
    (patches : List ProfilePatch) : Outcome (List ProfilePatch) :=
  let userOrder := (VersionBuilder.readOverrideOrders inst.orderFile []).2
  let byOrder := VersionBuilder.loadByUserOrder env inst userOrder patches
  match byOrder.thrown with
  | some e => ⟨byOrder.state, some e⟩
  | none =>
    match VersionBuilder.scanPatches env inst userOrder inst.patchEntries [] with
    | .error e => ⟨byOrder.state, some e⟩
    | .ok files => ⟨VersionBuilder.appendScanned files byOrder.state, none⟩

/-- `OneSixProfileStrategy::load`, with `clearPatches` emptying the patch list. -/
def load (env : Collaborators) (inst : OneSixInstance) (profile : MinecraftProfile) :
    Outcome MinecraftProfile :=
  let builtin := loadDefaultBuiltinPatches env inst []
  match builtin.thrown with
  | some e => ⟨{ profile with VersionPatches := builtin.state }, some e⟩
  | none =>
    let user := loadUserPatches env inst builtin.state
    match user.thrown with
    | some e => ⟨{ profile with VersionPatches := user.state }, some e⟩
    | none =>
      ⟨MinecraftProfile.finalize env { profile with VersionPatches := user.state }, none⟩

end OneSixProfileStrategy

namespace MinecraftProfile

/-- `MinecraftProfile::reload`: `VersionBuilder::build`, then `reapply`; an exception of the
build leaves `reload` at once. -/
def reload (env : Collaborators) (w : World) : Outcome World :=
  let built := VersionBuilder.build env w.profile w.inst
  match built.thrown with
  | some e => ⟨{ w with profile := built.state }, some e⟩
  | none =>
    let applied := reapply env built.state
    ⟨{ w with profile := applied.state }, applied.thrown⟩

/-- `MinecraftProfile::rowCount`. -/
def rowCount (p : MinecraftProfile) : Int := p.VersionPatches.length

/-- `MinecraftProfile::versionPatch(int)`: `none` is the null pointer. -/
def versionPatch (p : MinecraftProfile) (index : Int) : Option ProfilePatch :=
  if index < 0 ∨ index ≥ p.VersionPatches.length then none
  else p.VersionPatches[index.toNat]?

/-- The `PatchOrder` that `saveCurrentOrder` collects: the ids of the moveable patches. -/
def currentOrder (env : Collaborators) (p : MinecraftProfile) : PatchOrder :=
  (p.VersionPatches.filter (fun item => env.isMoveable item)).map (fun item => item.fileId)

/-- `MinecraftProfile::saveCurrentOrder`: the instance afterwards. -/
def saveCurrentOrder (env : Collaborators) (w : World) : World :=
  { w with inst := (VersionBuilder.writeOverrideOrders w.inst (currentOrder env w.profile)).2 }

/-- `QList::swap(i, j)`. -/
def swap (l : List ProfilePatch) (i j : Nat) : List ProfilePatch :=
  match l[i]?, l[j]? with
  | some a, some b => (l.set i b).set j a
  | _, _ => l

/-- `enum MoveDirection`. -/
inductive MoveDirection where
  | MoveUp
  | MoveDown
deriving DecidableEq

/-- The index `move` computes for the other entry, once `index` has passed the range check. -/
def moveTarget (p : MinecraftProfile) (index : Int) (direction : MoveDirection) : Int :=
  let theirIndex := if direction = .MoveUp then index - 1 else index + 1
  let theirIndex := if theirIndex ≥ rowCount p then rowCount p - 1 else theirIndex
  if theirIndex = -1 then rowCount p - 1 else theirIndex

/-- `MinecraftProfile::move`. -/
def move (env : Collaborators) (w : World) (index : Int) (direction : MoveDirection) :
    Outcome World :=
  if index < 0 ∨ index ≥ w.profile.VersionPatches.length then ⟨w, none⟩
  else
    let theirIndex := moveTarget w.profile index direction
    if index = theirIndex then ⟨w, none⟩
    else
      match versionPatch w.profile index, versionPatch w.profile theirIndex with
      | some src, some dst =>
        if !env.isMoveable dst || !env.isMoveable src then ⟨w, none⟩
        else
          let w1 := { w with profile := { w.profile with
            VersionPatches := swap w.profile.VersionPatches index.toNat theirIndex.toNat } }
          let w2 := saveCurrentOrder env w1
          let applied := reapply env w2.profile
          ⟨{ w2 with profile := applied.state }, applied.thrown⟩
      | _, _ => ⟨w, none⟩

end MinecraftProfile

/-- The value a C++ `int` holds after an arithmetic result `x`: two's-complement wrap-around
to 32 bits. -/
def wrapInt32 (x : Int) : Int := (x + 2 ^ 31) % 2 ^ 32 - 2 ^ 31

namespace MinecraftProfile

/-- `MinecraftProfile::getFreeOrderNumber`. -/
def getFreeOrderNumber (p : MinecraftProfile) : Int :=
  wrapInt32 (p.VersionPatches.foldl
    (fun largest thing => if thing.order > largest then thing.order else largest) 100 + 1)

end MinecraftProfile

/-- What a member function that returns `bool` leaves behind: the state, the value returned
(`none` when an exception left the function) and that exception. -/
structure Returned where
  state : World
  value : Option Bool
  thrown : Option MMCError

/-- `QFile::remove` on the file `patches/name`: the returned flag and the instance
afterwards. A file that does not exist cannot be removed. -/
def removePatchFile (inst : OneSixInstance) (name : String) : Bool × OneSixInstance :=
  if (inst.patchFile name).isSome && inst.patchFileRemovable name then
    (true, { inst with
      patchFile := fun n => if n = name then none else inst.patchFile n
      patchEntries := inst.patchEntries.filter (fun n => n ≠ name) })
  else (false, inst)

/-- `QFile::remove` on the jar-mod file of this name: the returned flag and the instance
afterwards. -/
def removeJarMod (inst : OneSixInstance) (name : String) : Bool × OneSixInstance :=
  if inst.jarModExists name && inst.jarModRemovable name then
    (true, { inst with jarModExists := fun n => if n = name then false else inst.jarModExists n })
  else (false, inst)

namespace MinecraftProfile

/-- `MinecraftProfile::canRemove`. `QList::at` asserts that the index is in range; outside
the range the model answers false. -/
def canRemove (env : Collaborators) (p : MinecraftProfile) (index : Int) : Bool :=
  match versionPatch p index with
  | some patch => env.isMoveable patch
  | none => false

/-- The loop of `preremove` over the jar mods of the patch, `ok` being the flag so far. -/
def preremoveLoop : List String → Bool → OneSixInstance → Bool × OneSixInstance
  | [], ok, inst => (ok, inst)
  | jarmod :: rest, ok, inst =>
    if inst.jarModExists jarmod then
      preremoveLoop rest (ok && (removeJarMod inst jarmod).1) (removeJarMod inst jarmod).2
    else preremoveLoop rest ok inst

/-- `MinecraftProfile::preremove`: the returned flag and the instance afterwards. -/
def preremove (inst : OneSixInstance) (patch : ProfilePatch) : Bool × OneSixInstance :=
  preremoveLoop patch.jarMods true inst

/-- `MinecraftProfile::remove(const int index)`. -/
def remove (env : Collaborators) (w : World) (index : Int) : Returned :=
  if !canRemove env w.profile index then ⟨w, some false, none⟩
  else
    match versionPatch w.profile index with
    | none => ⟨w, some false, none⟩
    | some patch =>
      let pre := preremove w.inst patch
      if !pre.1 then ⟨{ w with inst := pre.2 }, some false, none⟩
      else
        let deleted := removePatchFile pre.2 patch.filename
        if !deleted.1 then ⟨{ w with inst := deleted.2 }, some false, none⟩
        else
          let removed : MinecraftProfile :=
            { w.profile with VersionPatches := w.profile.VersionPatches.eraseIdx index.toNat }
          let applied := reapply env removed
          match applied.thrown with
          | some e => ⟨⟨applied.state, deleted.2⟩, none, some e⟩
          | none => ⟨saveCurrentOrder env ⟨applied.state, deleted.2⟩, some true, none⟩

/-- The `while` loop of `revertToVanilla`: `kept` are the entries the iterator has passed,
the list argument those from the iterator on. The result is the flag (false when a removal
failed), the patch list and the instance at that moment. -/
def revertLoop (env : Collaborators) :
    List ProfilePatch → List ProfilePatch → OneSixInstance →
      Bool × List ProfilePatch × OneSixInstance
  | [], kept, inst => (true, kept, inst)
  | patch :: rest, kept, inst =>
    if env.isMoveable patch then
      if !(preremove inst patch).1 then (false, kept ++ patch :: rest, (preremove inst patch).2)
      else if !(removePatchFile (preremove inst patch).2 patch.filename).1 then
        (false, kept ++ patch :: rest,
          (removePatchFile (preremove inst patch).2 patch.filename).2)
      else revertLoop env rest kept (removePatchFile (preremove inst patch).2 patch.filename).2
    else revertLoop env rest (kept ++ [patch]) inst

/-- `MinecraftProfile::revertToVanilla`. -/
def revertToVanilla (env : Collaborators) (w : World) : Returned :=
  let looped := revertLoop env w.profile.VersionPatches [] w.inst
  let w1 : World := ⟨{ w.profile with VersionPatches := looped.2.1 }, looped.2.2⟩
  if !looped.1 then ⟨saveCurrentOrder env w1, some false, none⟩
  else
    let applied := reapply env w1.profile
    match applied.thrown with
    | some e => ⟨{ w1 with profile := applied.state }, none, some e⟩
    | none => ⟨saveCurrentOrder env { w1 with profile := applied.state }, some true, none⟩

end MinecraftProfile

namespace OneSixProfileStrategy

/-- The `for` loop of `installJarMods`, `drawn` counting the uuids drawn so far: the flag is
false when the loop left the function with `return false`. A new `VersionFile` has an empty
version and is not vanilla. -/
def installLoop (env : Collaborators) : List String → Nat → World → Bool × World
  | [], _, w => (true, w)
  | filepath :: rest, drawn, w =>
    let id := env.createUuid drawn
    let target_filename := id ++ ".jar"
    let target_id := "org.multimc.jarmod." ++ id
    let target_name := env.completeBaseName filepath ++ " (jar mod)"
    if w.inst.jarModExists target_filename then (false, w)
    else if !w.inst.copySucceeds filepath then (false, w)
    else
      let copied : OneSixInstance :=
        { w.inst with
          jarModExists := fun n => if n = target_filename then true else w.inst.jarModExists n }
      let f : ProfilePatch :=
        { kind := .VersionFile, fileId := target_id, name := target_name, version := "",
          order := MinecraftProfile.getFreeOrderNumber w.profile,
          filename := target_id ++ ".json", jarMods := [target_filename], isVanilla := false }
      if !copied.patchFileWritable (target_id ++ ".json") then (false, { w with inst := copied })
      else
        let written : OneSixInstance :=
          { copied with
            patchFile := fun n =>
              if n = target_id ++ ".json" then some (.json (env.toJson f))
              else copied.patchFile n
            patchEntries :=
              if target_id ++ ".json" ∈ copied.patchEntries then copied.patchEntries
              else copied.patchEntries ++ [target_id ++ ".json"] }
        installLoop env rest (drawn + 1)
          ⟨{ w.profile with VersionPatches := w.profile.VersionPatches ++ [f] }, written⟩

/-- `OneSixProfileStrategy::installJarMods`. -/
def installJarMods (env : Collaborators) (w : World) (filepaths : List String) : Returned :=
  if !w.inst.patchesDirUsable then ⟨w, some false, none⟩
  else if !w.inst.jarModsDirUsable then ⟨w, some false, none⟩
  else
    let looped := installLoop env filepaths 0 w
    if !looped.1 then ⟨looped.2, some false, none⟩
    else
      let saved := MinecraftProfile.saveCurrentOrder env looped.2
      let applied := MinecraftProfile.reapply env saved.profile
      match applied.thrown with
      | some e => ⟨{ saved with profile := applied.state }, none, some e⟩
      | none => ⟨{ saved with profile := applied.state }, some true, none⟩

end OneSixProfileStrategy

namespace MinecraftProfile

/-- The inner loop of `getActiveNormalLibs`, `for (auto other : output)`: a warning is logged
for every entry of `output` that has the raw name of `lib`, and the `continue` that follows
the warning goes on with the next entry of `output`. The loop changes nothing but the log,
which holds the raw names warned about. -/
def warnSameName (lib : OneSixLibrary) (output : List OneSixLibrary) (log : List String) :
    List String :=
  output.foldl
    (fun log other => if other.rawName = lib.rawName then log ++ [lib.rawName] else log) log

/-- `MinecraftProfile::getActiveNormalLibs`: the list returned and the warnings logged. The
statement `output.append(lib)` follows the inner loop and is reached for every library that
is active and not native. -/
def getActiveNormalLibs (p : MinecraftProfile) : List OneSixLibrary × List String :=
  p.libraries.foldl
    (fun (state : List OneSixLibrary × List String) lib =>
      if lib.isActive && !lib.isNative then
        (state.1 ++ [lib], warnSameName lib state.1 state.2)
      else state)
    ([], [])

/-- `MinecraftProfile::getActiveNativeLibs`. -/
def getActiveNativeLibs (p : MinecraftProfile) : List OneSixLibrary :=
  p.libraries.foldl
    (fun output lib => if lib.isActive && lib.isNative then output ++ [lib] else output) []

end MinecraftProfile

/-! ## `SolderVersion` -/

/-- `QString::startsWith(QChar)`. -/
def QString.startsWith (s : String) (c : Char) : Bool := s.data.head? == some c

/-- `QString::remove(position, n)`. -/
def QString.remove (s : String) (position n : Nat) : String :=
  ⟨s.data.take position ++ s.data.drop (position + n)⟩

/-- The data members of a `SolderVersion` that `SolderVersion.cpp` reads. -/
structure SolderVersion where
  id : String
  is_latest : Bool
  is_recommended : Bool
  base_url : String
  pack_name : String
deriving DecidableEq

/-- The `SolderVersion` objects in memory, by address. -/
abbrev SolderVersions := Nat → SolderVersion

/-- The `BaseVersion &` argument of a comparison: a `SolderVersion` object, given by its
address, or an object of another class, on which `dynamic_cast<SolderVersion *>` yields
null. -/
inductive BaseVersionRef where
  | solder (address : Nat)
  | other
deriving DecidableEq

namespace SolderVersion

/-- `SolderVersion::name`. -/
def name (v : SolderVersion) : String := v.id

/-- `SolderVersion::descriptor`. -/
def descriptor (v : SolderVersion) : String := v.id

/-- `SolderVersion::filename`. -/
def filename (_v : SolderVersion) : String := ""

/-- `SolderVersion::url`. -/
def url (v : SolderVersion) : String := v.base_url ++ v.pack_name ++ "/" ++ v.id

/-- The statement `if (s.startsWith('v')) s.remove(0, 1);` where `s` is the reference
`auto & s = id` to the member `id` of the object at `address`. -/
def removeLeadingV (objects : SolderVersions) (address : Nat) : SolderVersions :=
  if QString.startsWith (objects address).id 'v' then
    fun k =>
      if k = address then
        { objects address with id := QString.remove (objects address).id 0 1 }
      else objects k
  else objects

/-- `SolderVersion::operator<` called on the object at `self` with the argument `a`: the
value returned and the objects afterwards. `Util::Version` is not part of these sources;
`less first second` stands for `Util::Version(first) < Util::Version(second)`. -/
def operatorLess (less : String → String → Bool) (objects : SolderVersions) (self : Nat)
    (a : BaseVersionRef) : Bool × SolderVersions :=
  match a with
  | .other => (true, objects)
  | .solder pa =>
    let afterFirst := removeLeadingV objects self
    let afterSecond := removeLeadingV afterFirst pa
    (less (afterSecond self).id (afterSecond pa).id, afterSecond)

/-- `SolderVersion::operator>` called on the object at `self` with the argument `a`: the
value returned and the objects afterwards; `greater first second` stands for
`Util::Version(first) > Util::Version(second)`. -/
def operatorGreater (greater : String → String → Bool) (objects : SolderVersions) (self : Nat)
    (a : BaseVersionRef) : Bool × SolderVersions :=
  match a with
  | .other => (false, objects)
  | .solder pa =>
    let afterFirst := removeLeadingV objects self
    let afterSecond := removeLeadingV afterFirst pa
    (greater (afterSecond self).id (afterSecond pa).id, afterSecond)

end SolderVersion

/-- The lambda `versionCompare` of `loadSolderPackInfo`, which takes its two strings by
value: `greater first second` stands for `Util::Version(first) > Util::Version(second)`. -/
def versionCompare (greater : String → String → Bool) (first second : String) : Bool :=
  let first := if QString.startsWith first 'v' then QString.remove first 0 1 else first
  let second := if QString.startsWith second 'v' then QString.remove second 0 1 else second
  greater first second

/-! ## The vocabulary of the statements -/

/-- The keys of the map ascend strictly: the representation invariant of `QMap`. -/
def QMap.Ordered {V : Type} (m : QMap V) : Prop := (QMap.keys m).Pairwise (· < ·)

namespace VersionBuilder

/-- The `userOrder` of the loader: what `readOverrideOrders` leaves in it. -/
def userOrder (inst : OneSixInstance) : PatchOrder :=
  (readOverrideOrders inst.orderFile []).2

/-- In the words of the spec: the ids "listed in the persisted order (excluding builtin ids)"
for which "a file `<id>.json` exists in the directory", in the sequence of the order. -/
def presentIds (inst : OneSixInstance) (order : PatchOrder) : List String :=
  order.filter (fun id =>
    decide (id ≠ "net.minecraft" ∧ id ≠ "org.lwjgl") && (inst.patchFile (id ++ ".json")).isSome)

/-- What the first loop reads for an id: the parse of `<id>.json`, order not required. -/
def parseById (env : Collaborators) (inst : OneSixInstance) (id : String) :
    Except MMCError ProfilePatch :=
  parseJsonFile env (inst.patchFile (id ++ ".json")) (id ++ ".json") false false

/-- What the directory scan reads for an entry: the parse of the file, order required. -/
def parseEntry (env : Collaborators) (inst : OneSixInstance) (info : String) :
    Except MMCError ProfilePatch :=
  parseJsonFile env (inst.patchFile info) info true false

/-- The scan keeps a parsed file: its id is no builtin id and is not an id of the order. -/
def Kept (order : PatchOrder) (file : ProfilePatch) : Prop :=
  file.fileId ≠ "net.minecraft" ∧ file.fileId ≠ "org.lwjgl" ∧ file.fileId ∉ order

end VersionBuilder

/-- In the words of the spec: the "fixed schema" of the order file, an object whose "version"
is the integer 1 and whose "order" is an array of strings (the patch ids). -/
def OrderFileSchema (doc : QJsonValue) : Prop :=
  ∃ (members : List (String × QJsonValue)) (ids : List String),
    doc = .object members ∧
    QJsonValue.value members "version" = .double 1 ∧
    QJsonValue.value members "order" = .array (ids.map QJsonValue.string)

/-- In the words of the spec: "max existing order", with the floor of 100 that makes the
result "minimum 101". -/
def largestOrderOr100 (patches : List ProfilePatch) : Int :=
  (patches.map (fun p => p.order)).foldr max 100

/-- In the words of the spec: a launch-argument template `result` is the template `template`
finalised from the preset name `preset`. A template that is not empty stays; an empty one is
"synthesized from a small closed enumeration of named presets", the name compared in lower
case, and "unrecognized preset names leave the template empty". -/
def FinalizedFromPreset (toLower : String → String) (template preset result : String) : Prop :=
  (template ≠ "" → result = template) ∧
  (template = "" → toLower preset = "legacy" →
    result = " $\x7bauth_player_name\x7d $\x7bauth_session\x7d") ∧
  (template = "" → toLower preset = "username_session" →
    result = "--username $\x7bauth_player_name\x7d --session $\x7bauth_session\x7d") ∧
  (template = "" → toLower preset = "username_session_version" →
    result = "--username $\x7bauth_player_name\x7d --session $\x7bauth_session\x7d"
      ++ " --version $\x7bprofile_name\x7d") ∧
  (template = "" → toLower preset ≠ "legacy" → toLower preset ≠ "username_session" →
    toLower preset ≠ "username_session_version" → result = "")

/-! ## A concrete installation

Used to run the definitions on explicit inputs. -/

/-- `QJsonValue::toString(defaultValue)`. -/
def QJsonValue.toStringOr : QJsonValue → String → String
  | .string s, _ => s
  | _, defaultValue => defaultValue

/-- Modelled from the spec: `VersionFile::fromJson` (VersionFile.cpp is not among the sources),
for the members the loader looks at: "id (string, required ...), name, version, order (integer,
optional unless required by caller)" and the jar-mod file names are left empty. -/
def VersionFile.fromJson (doc : QJsonValue) (filename : String) (requireOrder : Bool)
    (_isFTB : Bool) : Except MMCError ProfilePatch :=
  match MMCJson.ensureObject doc with
  | .error e => .error e
  | .ok root =>
    match MMCJson.ensureString (QJsonValue.value root "id") with
    | .error e => .error e
    | .ok fileId =>
      let file : ProfilePatch :=
        { kind := .VersionFile, fileId := fileId,
          name := QJsonValue.toStringOr (QJsonValue.value root "name") "",
          version := QJsonValue.toStringOr (QJsonValue.value root "version") "",
          order := 0, filename := filename, jarMods := [], isVanilla := false }
      match QJsonValue.value root "order" with
      | .undefined =>
        if requireOrder then .error (.JSONValidationError (filename ++ " has no order"))
        else .ok file
      | v =>
        match MMCJson.ensureInteger v "order" with
        | .error e => .error e
        | .ok order => .ok { file with order := order }

namespace Sample

/-- The catalog entry of the engine version. -/
def minecraft : ProfilePatch :=
  { kind := .MinecraftVersion, fileId := "net.minecraft", name := "Minecraft",
    version := "1.7.10", order := 0, filename := "", jarMods := [], isVanilla := true }

/-- The bundled library document. -/
def lwjglDoc : QJsonValue :=
  .object [("id", .string "org.lwjgl"), ("name", .string "LWJGL"), ("version", .string "2.9.1")]

/-- Modelled from the spec: `isMoveable` ("Builtins (net.minecraft, org.lwjgl) are never
moveable", every other patch is). -/
def isMoveable (p : ProfilePatch) : Bool :=
  !(decide (p.fileId = "net.minecraft") || decide (p.fileId = "org.lwjgl"))

/-- A patch document with the given id and order hint. -/
def patchDoc (id : String) (order : Int) : QJsonValue :=
  .object [("id", .string id), ("order", .double order)]

/-- Lower-casing of the ASCII letters, character by character. -/
def toLower (s : String) : String := ⟨s.data.map Char.toLower⟩

/-- Collaborators of the concrete installation: a catalog that knows every version, the
spec's patch-file parser, an `applyTo` that changes nothing. -/
def env : Collaborators where
  findVersion := fun _ => some minecraft
  lwjglResource := some (.json lwjglDoc)
  fromJson := VersionFile.fromJson
  isMoveable := isMoveable
  applyTo := fun _ p => .ok p
  currentDate := ⟨10, 30⟩
  toLower := toLower
  createUuid := fun n => ⟨List.replicate (n + 1) 'u'⟩
  completeBaseName := fun path => path
  toJson := fun f => patchDoc f.fileId f.order

/-- An order document listing the given ids. -/
def orderDoc (version : Int) (ids : List String) : QJsonValue :=
  .object [("version", .double version), ("order", .array (ids.map QJsonValue.string))]

/-- A profile with nothing in it. -/
def emptyProfile : MinecraftProfile :=
  { VersionPatches := [], id := "", m_updateTimeString := "", m_releaseTimeString := "",
    type := "", assets := "", processArguments := "", minecraftArguments := "",
    vanillaProcessArguments := "", vanillaMinecraftArguments := "",
    minimumLauncherVersion := 0, mainClass := "", appletClass := "", libraries := [],
    tweakers := [], jarMods := [], traits := [] }

/-- The patches directory given by its `*.json` files. -/
def instanceOf (orderFile : Option FileData) (files : List (String × FileData)) :
    OneSixInstance :=
  { intendedVersionId := "1.7.10", orderFile := orderFile, orderFileWritable := true,
    patchFile := fun name => (files.find? (fun f => f.1 = name)).map Prod.snd,
    patchEntries := files.map Prod.fst,
    patchFileRemovable := fun _ => true, patchFileWritable := fun _ => true,
    patchesDirUsable := true, jarModExists := fun _ => false, jarModRemovable := fun _ => true,
    jarModsDirUsable := true, copySucceeds := fun _ => true }

/-- No order file, one user patch `my.mod.json` with order 150. -/
def singlePatch : OneSixInstance :=
  instanceOf none [("my.mod.json", .json (patchDoc "my.mod" 150))]


/-- Order file `["gone", "my.mod"]`; `gone.json` does not exist, `my.mod.json` (order 150) and
`other.json` (order 7) do. -/
def withMissingId : OneSixInstance :=
  instanceOf (some (.json (orderDoc 1 ["gone", "my.mod"])))
    [("my.mod.json", .json (patchDoc "my.mod" 150)), ("other.json", .json (patchDoc "other" 7))]

/-- Order file `["a", "b"]`; `a.json` declares the id `a`, `b.json` declares the id `c`. -/
def mismatch : OneSixInstance :=
  instanceOf (some (.json (orderDoc 1 ["a", "b"])))
    [("a.json", .json (patchDoc "a" 1)), ("b.json", .json (patchDoc "c" 2))]

/-- No order file; `x.json` and `y.json` both declare the order 5. -/
def sameOrder : OneSixInstance :=
  instanceOf none [("x.json", .json (patchDoc "x" 5)), ("y.json", .json (patchDoc "y" 5))]

/-- An order file of version 2 next to the single user patch. -/
def wrongVersion : OneSixInstance :=
  instanceOf (some (.json (orderDoc 2 ["my.mod"])))
    [("my.mod.json", .json (patchDoc "my.mod" 150))]

/-- Order file `["a", "a"]` next to `a.json`. -/
def duplicateOrder : OneSixInstance :=
  instanceOf (some (.json (orderDoc 1 ["a", "a"]))) [("a.json", .json (patchDoc "a" 1))]

/-- Order file `["a"]`; there is no `a.json`, and `b.json` declares the id `a`. -/
def strayId : OneSixInstance :=
  instanceOf (some (.json (orderDoc 1 ["a"]))) [("b.json", .json (patchDoc "a" 5))]

/-- The patch the spec's parser returns for `patchDoc id order` stored as `fileName`. -/
def parsed (fileName id : String) (order : Int) : ProfilePatch :=
  { kind := .VersionFile, fileId := id, name := "", version := "", order := order,
    filename := fileName, jarMods := [], isVanilla := false }

/-- The patch the spec's parser returns for the bundled library document. -/
def lwjgl : ProfilePatch :=
  { kind := .VersionFile, fileId := "org.lwjgl", name := "LWJGL", version := "2.9.1",
    order := 0, filename := ":/versions/LWJGL/2.9.1.json", jarMods := [], isVanilla := false }

/-- A loaded installation: the two builtins and the user patches `a` and `b`, listed in this
sequence by the order file. -/
def world : World :=
  { profile := { emptyProfile with VersionPatches :=
      [minecraft.setOrder (-2), (lwjgl.setOrder (-1)).setVanilla true,
        parsed "a.json" "a" 1, parsed "b.json" "b" 2] },
    inst := instanceOf (some (.json (orderDoc 1 ["a", "b"])))
      [("a.json", .json (patchDoc "a" 1)), ("b.json", .json (patchDoc "b" 2))] }

end Sample

namespace Sample

/-- A list of three user patches and no builtin, with the order file that lists them. -/
def userWorld : World :=
  { profile := { emptyProfile with VersionPatches :=
      [parsed "a.json" "a" 1, parsed "b.json" "b" 2, parsed "c.json" "c" 3] },
    inst := instanceOf (some (.json (orderDoc 1 ["a", "b", "c"])))
      [("a.json", .json (patchDoc "a" 1)), ("b.json", .json (patchDoc "b" 2)),
        ("c.json", .json (patchDoc "c" 3))] }

end Sample

namespace Sample

/-- The loaded installation after `installJarMods` of the single file `mod.jar`. -/
def installed : World :=
  (OneSixProfileStrategy.installJarMods env world ["mod.jar"]).state

/-- The installation with the jar mod, its patches directory made read-only: no patch file
can be removed. -/
def lockedWorld : World :=
  { installed with inst := { installed.inst with patchFileRemovable := fun _ => false } }

/-- The loaded installation with an order file that cannot be opened for writing. -/
def readOnlyOrderWorld : World :=
  { world with inst := { world.inst with orderFileWritable := false } }

end Sample

namespace Sample

/-- Modelled from the spec: the part of `applyTo` that makes a patch "append jar-mod
references" to the profile (`ProfilePatch::applyTo` is not among the sources). -/
def appendJarMods (patch : ProfilePatch) (p : MinecraftProfile) :
    Except MMCError MinecraftProfile :=
  .ok { p with jarMods := p.jarMods ++ patch.jarMods }

/-- The collaborators of the concrete installation, with patches that merge their jar mods. -/
def mergingEnv : Collaborators := { env with applyTo := appendJarMods }

/-- The loaded installation after `installJarMods` of `mod.jar` and `other.jar`, merged; the
patch file of the second jar mod cannot be removed. -/
def twoJarMods : World :=
  { (OneSixProfileStrategy.installJarMods mergingEnv world ["mod.jar", "other.jar"]).state with
    inst :=
      { (OneSixProfileStrategy.installJarMods mergingEnv world
          ["mod.jar", "other.jar"]).state.inst with
        patchFileRemovable := fun n => n != "org.multimc.jarmod.uu.json" } }

/-- The loaded installation when `missing.jar` cannot be copied. -/
def missingSource : World :=
  { world with inst := { world.inst with copySucceeds := fun path => path != "missing.jar" } }

end Sample

namespace Sample

/-- No order file; `b.json` declares the id `x` (order 5), `c.json` declares the id `c`
(order 6). -/
def renamedFile : OneSixInstance :=
  instanceOf none [("b.json", .json (patchDoc "x" 5)), ("c.json", .json (patchDoc "c" 6))]

/-- The installation of `renamedFile` after `reload`. -/
def renamedWorld : World :=
  (MinecraftProfile.reload env ⟨emptyProfile, renamedFile⟩).state

end Sample

namespace Sample

/-- A merged profile whose library list holds the raw name `org.lwjgl.lwjgl:lwjgl:2.9.1`
twice, active and not native, then its native companion, then an inactive library. -/
def doubledLibrary : MinecraftProfile :=
  { emptyProfile with
    libraries :=
      [⟨"org.lwjgl.lwjgl:lwjgl:2.9.1", true, false⟩,
       ⟨"org.lwjgl.lwjgl:lwjgl:2.9.1", true, false⟩,
       ⟨"org.lwjgl.lwjgl:lwjgl-platform:2.9.1", true, true⟩,
       ⟨"com.paulscode:codecjorbis:20101023", false, false⟩] }

/-- A build of the pack `tekkitmain` with the given id. -/
def build (id : String) : SolderVersion :=
  { id := id, is_latest := false, is_recommended := false,
    base_url := "http://solder.technicpack.net/api/modpack/", pack_name := "tekkitmain" }

/-- The build `v1.0.2` at address 0 and the build `1.0.3` at every other address. -/
def builds : SolderVersions :=
  fun address => if address = 0 then build "v1.0.2" else build "1.0.3"

end Sample

/-! ## Lemmas on `QMap` and on the loader -/

namespace QMap

theorem contains_iff {V : Type} (m : QMap V) (key : Int) :
    QMap.contains m key = true ↔ key ∈ QMap.keys m := by
  simp [QMap.contains, QMap.keys]

theorem mem_insert {V : Type} (key : Int) (v : V) (m : QMap V) (x : Int × V)
    (hx : x ∈ QMap.insert key v m) : x = (key, v) ∨ x ∈ m := by
  induction m with
  | nil => simpa [QMap.insert] using hx
  | cons a rest ih =>
    obtain ⟨k, w⟩ := a
    unfold QMap.insert at hx
    split_ifs at hx with h1 h2
    · rcases List.mem_cons.1 hx with h | h
      · exact Or.inl h
      · exact Or.inr h
    · rcases List.mem_cons.1 hx with h | h
      · exact Or.inl h
      · exact Or.inr (List.mem_cons_of_mem _ h)
    · rcases List.mem_cons.1 hx with h | h
      · exact Or.inr (h ▸ List.mem_cons_self _ _)
      · rcases ih h with h' | h'
        · exact Or.inl h'
        · exact Or.inr (List.mem_cons_of_mem _ h')

theorem mem_insert_self {V : Type} (key : Int) (v : V) (m : QMap V) :
    (key, v) ∈ QMap.insert key v m := by
  induction m with
  | nil => simp [QMap.insert]
  | cons a rest ih =>
    obtain ⟨k, w⟩ := a
    unfold QMap.insert
    split_ifs with h1 h2
    · exact List.mem_cons_self _ _
    · exact List.mem_cons_self _ _
    · exact List.mem_cons_of_mem _ ih

theorem mem_insert_of_mem {V : Type} (key : Int) (v : V) (m : QMap V) (x : Int × V)
    (hx : x ∈ m) (hne : x.1 ≠ key) : x ∈ QMap.insert key v m := by
  induction m with
  | nil => cases hx
  | cons a rest ih =>
    obtain ⟨k, w⟩ := a
    unfold QMap.insert
    split_ifs with h1 h2
    · exact List.mem_cons_of_mem _ hx
    · rcases List.mem_cons.1 hx with h | h
      · exact absurd (by rw [h]; exact h2.symm) hne
      · exact List.mem_cons_of_mem _ h
    · rcases List.mem_cons.1 hx with h | h
      · exact h ▸ List.mem_cons_self _ _
      · exact List.mem_cons_of_mem _ (ih h)

theorem ordered_insert {V : Type} (key : Int) (v : V) (m : QMap V) (h : Ordered m) :
    Ordered (QMap.insert key v m) := by
  induction m with
  | nil => simp [QMap.insert, Ordered, QMap.keys]
  | cons a rest ih =>
    obtain ⟨k, w⟩ := a
    have hrest : Ordered rest := (List.pairwise_cons.1 h).2
    have hk : ∀ x ∈ QMap.keys rest, k < x := (List.pairwise_cons.1 h).1
    unfold QMap.insert
    split_ifs with h1 h2
    · refine List.pairwise_cons.2 ⟨?_, h⟩
      intro x hx
      rcases List.mem_cons.1 hx with hx | hx
      · exact hx ▸ h1
      · exact lt_trans h1 (hk x hx)
    · subst h2
      exact List.pairwise_cons.2 ⟨hk, hrest⟩
    · refine List.pairwise_cons.2 ⟨?_, ih hrest⟩
      intro x hx
      obtain ⟨y, hy, rfl⟩ := List.mem_map.1 hx
      rcases mem_insert key v rest y hy with hy | hy
      · subst hy
        exact lt_of_le_of_ne (not_lt.1 h1) (fun e => h2 e.symm)
      · exact hk _ (List.mem_map_of_mem _ hy)

theorem get_of_not_mem_keys {V : Type} (m : QMap V) (key : Int) (h : key ∉ QMap.keys m) :
    QMap.get m key = none := by
  induction m with
  | nil => rfl
  | cons a rest ih =>
    obtain ⟨k, w⟩ := a
    simp only [QMap.keys, List.map_cons, List.mem_cons, not_or] at h
    simp only [QMap.get]
    rw [if_neg (fun e => h.1 e.symm)]
    exact ih h.2

theorem filterMap_get_keys {V W : Type} (f : V → W) (m : QMap V) (h : Ordered m) :
    (QMap.keys m).filterMap (fun key => (QMap.get m key).map f) = m.map (fun kv => f kv.2) := by
  induction m with
  | nil => rfl
  | cons a rest ih =>
    obtain ⟨k, w⟩ := a
    have hrest : Ordered rest := (List.pairwise_cons.1 h).2
    have hk : ∀ x ∈ QMap.keys rest, k < x := (List.pairwise_cons.1 h).1
    have hcongr : (QMap.keys rest).filterMap (fun key => (QMap.get ((k, w) :: rest) key).map f)
        = (QMap.keys rest).filterMap (fun key => (QMap.get rest key).map f) := by
      apply List.filterMap_congr
      intro x hx
      have : k ≠ x := ne_of_lt (hk x hx)
      simp [QMap.get, this]
    have hhead : QMap.get ((k, w) :: rest) k = some w := by simp [QMap.get]
    show List.filterMap _ (k :: QMap.keys rest) = _
    rw [List.filterMap_cons, hhead, hcongr, ih hrest]
    rfl

end QMap

namespace VersionBuilder

theorem loadByUserOrder_spec (env : Collaborators) (inst : OneSixInstance) (order : PatchOrder) :
    ∀ patches : List ProfilePatch, ∃ ps : List ProfilePatch,
      (loadByUserOrder env inst order patches).state = patches ++ ps ∧
      (∀ p ∈ ps, parseById env inst p.fileId = .ok p) ∧
      ps.map (fun p => p.fileId) <+: presentIds inst order ∧
      ((loadByUserOrder env inst order patches).thrown = none →
        ps.map (fun p => p.fileId) = presentIds inst order) := by
  induction order with
  | nil =>
    intro patches
    exact ⟨[], by simp [loadByUserOrder], by simp, by simp [presentIds], by simp [presentIds]⟩
  | cons id rest ih =>
    intro patches
    unfold loadByUserOrder
    by_cases h1 : id = "net.minecraft"
    · simpa [h1, presentIds] using ih patches
    by_cases h2 : id = "org.lwjgl"
    · simpa [h2, presentIds] using ih patches
    by_cases h3 : (inst.patchFile (id ++ ".json")).isNone = true
    · have h3' : (inst.patchFile (id ++ ".json")).isSome = false := by
        cases h : inst.patchFile (id ++ ".json") <;> simp_all
      simpa [h1, h2, h3, h3', presentIds] using ih patches
    have h3' : (inst.patchFile (id ++ ".json")).isSome = true := by
      cases h : inst.patchFile (id ++ ".json") <;> simp_all
    have hpres : presentIds inst (id :: rest) = id :: presentIds inst rest := by
      simp [presentIds, h1, h2, h3']
    rw [if_neg h1, if_neg h2, if_neg h3, hpres]
    cases hp : parseJsonFile env (inst.patchFile (id ++ ".json")) (id ++ ".json") false false with
    | error e => exact ⟨[], by simp, by simp, by simp, by simp⟩
    | ok file =>
      by_cases h4 : file.fileId ≠ id
      · simp only [if_pos h4]
        exact ⟨[], by simp, by simp, by simp, by simp⟩
      · simp only [if_neg h4]
        have h4' : file.fileId = id := not_not.1 h4
        obtain ⟨ps, hs, hparse, hpre, hok⟩ := ih (patches ++ [file])
        refine ⟨file :: ps, by simp [hs], ?_, ?_, ?_⟩
        · intro p hp'
          rcases List.mem_cons.1 hp' with rfl | hp'
          · simpa [parseById, h4'] using hp
          · exact hparse p hp'
        · simpa [h4'] using hpre
        · intro hnone
          simp [h4', hok hnone]


theorem scanPatches_spec (env : Collaborators) (inst : OneSixInstance) (uo : PatchOrder)
    (entries : List String) :
    ∀ files files' : QMap (String × ProfilePatch),
      scanPatches env inst uo entries files = .ok files' → QMap.Ordered files →
      QMap.Ordered files' ∧ (∀ x ∈ files, x ∈ files') ∧
      (∀ x ∈ files', x ∈ files ∨ (x.2.1 ∈ entries ∧ parseEntry env inst x.2.1 = .ok x.2.2 ∧
        x.1 = x.2.2.order ∧ Kept uo x.2.2)) ∧
      (∀ info ∈ entries, ∀ f, parseEntry env inst info = .ok f → Kept uo f →
        (f.order, (info, f)) ∈ files') := by
  induction entries with
  | nil =>
    intro files files' h hord
    simp only [scanPatches, Except.ok.injEq] at h
    subst h
    exact ⟨hord, fun x hx => hx, fun x hx => Or.inl hx, fun info hinfo => by cases hinfo⟩
  | cons info rest ih =>
    intro files files' h hord
    unfold scanPatches at h
    cases hp : parseJsonFile env (inst.patchFile info) info true false with
    | error e => rw [hp] at h; cases h
    | ok file =>
      rw [hp] at h
      simp only at h
      have hskip : ¬ Kept uo file → scanPatches env inst uo rest files = .ok files' →
          QMap.Ordered files' ∧ (∀ x ∈ files, x ∈ files') ∧
          (∀ x ∈ files', x ∈ files ∨ (x.2.1 ∈ info :: rest ∧
            parseEntry env inst x.2.1 = .ok x.2.2 ∧ x.1 = x.2.2.order ∧ Kept uo x.2.2)) ∧
          (∀ info' ∈ info :: rest, ∀ f, parseEntry env inst info' = .ok f → Kept uo f →
            (f.order, (info', f)) ∈ files') := by
        intro hnk h'
        obtain ⟨a, b, c, d⟩ := ih files files' h' hord
        refine ⟨a, b, ?_, ?_⟩
        · intro x hx
          rcases c x hx with hx' | ⟨h1, h2⟩
          · exact Or.inl hx'
          · exact Or.inr ⟨List.mem_cons_of_mem _ h1, h2⟩
        · intro info' hinfo' f hf hk
          rcases List.mem_cons.1 hinfo' with rfl | hmem
          · have : f = file := by
              have := hf.symm.trans hp
              exact (Except.ok.inj this)
            exact absurd (this ▸ hk) hnk
          · exact d info' hmem f hf hk
      by_cases h1 : file.fileId = "net.minecraft"
      · rw [if_pos h1] at h
        exact hskip (fun hk => hk.1 h1) h
      rw [if_neg h1] at h
      by_cases h2 : file.fileId = "org.lwjgl"
      · rw [if_pos h2] at h
        exact hskip (fun hk => hk.2.1 h2) h
      rw [if_neg h2] at h
      by_cases h3 : file.fileId ∈ uo
      · rw [if_pos h3] at h
        exact hskip (fun hk => hk.2.2 h3) h
      rw [if_neg h3] at h
      by_cases h4 : QMap.contains files file.order = true
      · rw [if_pos h4] at h; cases h
      rw [if_neg h4] at h
      have hnk : file.order ∉ QMap.keys files := fun hm => h4 ((QMap.contains_iff _ _).2 hm)
      obtain ⟨a, b, c, d⟩ := ih _ files' h (QMap.ordered_insert _ _ _ hord)
      refine ⟨a, ?_, ?_, ?_⟩
      · intro x hx
        refine b x (QMap.mem_insert_of_mem _ _ _ x hx ?_)
        intro e
        exact hnk (e ▸ List.mem_map_of_mem Prod.fst hx)
      · intro x hx
        rcases c x hx with hx' | ⟨q1, q2⟩
        · rcases QMap.mem_insert _ _ _ x hx' with rfl | hx''
          · exact Or.inr ⟨List.mem_cons_self _ _, hp, rfl, h1, h2, h3⟩
          · exact Or.inl hx''
        · exact Or.inr ⟨List.mem_cons_of_mem _ q1, q2⟩
      · intro info' hinfo' f hf hk
        rcases List.mem_cons.1 hinfo' with rfl | hmem
        · have : f = file := Except.ok.inj (hf.symm.trans hp)
          subst this
          exact b _ (QMap.mem_insert_self _ _ _)
        · exact d info' hmem f hf hk

theorem appendScanned_eq (files : QMap (String × ProfilePatch)) (patches : List ProfilePatch)
    (h : QMap.Ordered files) :
    appendScanned files patches = patches ++ files.map (fun kv => kv.2.2) := by
  unfold appendScanned
  rw [QMap.filterMap_get_keys Prod.snd files h]


theorem readInstancePatches_def (env : Collaborators) (inst : OneSixInstance)
    (patches : List ProfilePatch) :
    readInstancePatches env inst patches =
      match (loadByUserOrder env inst (userOrder inst) patches).thrown with
      | some e => ⟨(loadByUserOrder env inst (userOrder inst) patches).state, some e⟩
      | none =>
        match scanPatches env inst (userOrder inst) inst.patchEntries [] with
        | .error e => ⟨(loadByUserOrder env inst (userOrder inst) patches).state, some e⟩
        | .ok files =>
          ⟨appendScanned files (loadByUserOrder env inst (userOrder inst) patches).state,
            none⟩ := rfl

theorem readInstancePatches_ok (env : Collaborators) (inst : OneSixInstance)
    (patches : List ProfilePatch)
    (h : (readInstancePatches env inst patches).thrown = none) :
    ∃ (ordered : List ProfilePatch) (files : QMap (String × ProfilePatch)),
      (readInstancePatches env inst patches).state
        = patches ++ (ordered ++ files.map (fun kv => kv.2.2)) ∧
      ordered.map (fun p => p.fileId) = presentIds inst (userOrder inst) ∧
      (∀ p ∈ ordered, parseById env inst p.fileId = .ok p) ∧
      scanPatches env inst (userOrder inst) inst.patchEntries [] = .ok files := by
  obtain ⟨ps, hs, hparse, -, hok⟩ := loadByUserOrder_spec env inst (userOrder inst) patches
  rw [readInstancePatches_def] at h ⊢
  cases hl : (loadByUserOrder env inst (userOrder inst) patches).thrown with
  | some e => rw [hl] at h; cases h
  | none =>
    rw [hl] at h
    simp only at h ⊢
    cases hsc : scanPatches env inst (userOrder inst) inst.patchEntries [] with
    | error e => rw [hsc] at h; cases h
    | ok files =>
      have hord : QMap.Ordered files :=
        (scanPatches_spec env inst _ _ [] files hsc List.Pairwise.nil).1
      refine ⟨ps, files, ?_, hok hl, hparse, rfl⟩
      simp only [appendScanned_eq files _ hord, hs, List.append_assoc]

theorem finalize_patches (env : Collaborators) (p : MinecraftProfile) :
    (MinecraftProfile.finalize env p).VersionPatches = p.VersionPatches := rfl

theorem buildInternal_ok (env : Collaborators) (inst : OneSixInstance)
    (profile : MinecraftProfile)
    (h : (buildInternal env inst profile).thrown = none) :
    ∃ (mc lwjgl : ProfilePatch) (ordered : List ProfilePatch)
      (files : QMap (String × ProfilePatch)),
      env.findVersion inst.intendedVersionId = some mc ∧
      parseJsonFile env env.lwjglResource ":/versions/LWJGL/2.9.1.json" false false
        = .ok lwjgl ∧
      (buildInternal env inst profile).state.VersionPatches
        = mc.setOrder (-2) :: (lwjgl.setOrder (-1)).setVanilla true
            :: (ordered ++ files.map (fun kv => kv.2.2)) ∧
      ordered.map (fun p => p.fileId) = presentIds inst (userOrder inst) ∧
      (∀ p ∈ ordered, parseById env inst p.fileId = .ok p) ∧
      scanPatches env inst (userOrder inst) inst.patchEntries [] = .ok files := by
  unfold buildInternal at h ⊢
  cases h1 : env.findVersion inst.intendedVersionId with
  | none => rw [h1] at h; cases h
  | some mc =>
    rw [h1] at h
    simp only at h ⊢
    cases h2 : parseJsonFile env env.lwjglResource ":/versions/LWJGL/2.9.1.json" false false with
    | error e => rw [h2] at h; cases h
    | ok lwjgl =>
      rw [h2] at h
      simp only at h ⊢
      cases h3 : (readInstancePatches env inst
          ([] ++ [mc.setOrder (-2)] ++ [(lwjgl.setOrder (-1)).setVanilla true])).thrown with
      | some e => rw [h3] at h; cases h
      | none =>
        obtain ⟨ordered, files, hs, ho, hp, hsc⟩ := readInstancePatches_ok env inst _ h3
        refine ⟨mc, lwjgl, ordered, files, rfl, rfl, ?_, ho, hp, hsc⟩
        simp only [finalize_patches, hs]
        simp

end VersionBuilder

theorem QMap.eq_of_key_eq {V : Type} (m : QMap V) (h : QMap.Ordered m) (x y : Int × V)
    (hx : x ∈ m) (hy : y ∈ m) (hk : x.1 = y.1) : x = y := by
  have hp : m.Pairwise (fun a b => a.1 ≠ b.1) := by
    have := List.pairwise_map.1 h
    exact this.imp (fun hab => ne_of_lt hab)
  by_contra hne
  exact hp.forall (fun a b hab => hab.symm) hx hy hne hk

namespace VersionBuilder

end VersionBuilder

theorem OneSixProfileStrategy.load_eq_buildInternal (env : Collaborators)
    (inst : OneSixInstance) (profile : MinecraftProfile) :
    OneSixProfileStrategy.load env inst profile
      = VersionBuilder.buildInternal env inst profile := by
  unfold OneSixProfileStrategy.load VersionBuilder.buildInternal
    OneSixProfileStrategy.loadDefaultBuiltinPatches
  cases h1 : env.findVersion inst.intendedVersionId with
  | none => rfl
  | some mc =>
    simp only
    cases h2 : VersionBuilder.parseJsonFile env env.lwjglResource ":/versions/LWJGL/2.9.1.json"
        false false with
    | error e => rfl
    | ok lwjgl => rfl

namespace QMap

end QMap

namespace VersionBuilder

theorem loadByUserOrder_congr (env : Collaborators) (inst₀ inst : OneSixInstance)
    (hpf : inst₀.patchFile = inst.patchFile) (order : PatchOrder) :
    ∀ patches, loadByUserOrder env inst₀ order patches = loadByUserOrder env inst order patches := by
  induction order with
  | nil => intro patches; rfl
  | cons id rest ih =>
    intro patches
    simp only [loadByUserOrder, hpf, ih]

theorem buildInternal_thrown_none_iff (env : Collaborators) (inst : OneSixInstance)
    (profile : MinecraftProfile) :
    (buildInternal env inst profile).thrown = none ↔
      ∃ (mc lwjgl : ProfilePatch) (files : QMap (String × ProfilePatch)),
        env.findVersion inst.intendedVersionId = some mc ∧
        parseJsonFile env env.lwjglResource ":/versions/LWJGL/2.9.1.json" false false
          = .ok lwjgl ∧
        (loadByUserOrder env inst (userOrder inst)
          [mc.setOrder (-2), (lwjgl.setOrder (-1)).setVanilla true]).thrown = none ∧
        scanPatches env inst (userOrder inst) inst.patchEntries [] = .ok files := by
  unfold buildInternal
  cases h1 : env.findVersion inst.intendedVersionId with
  | none => simp
  | some mc =>
    simp only
    cases h2 : parseJsonFile env env.lwjglResource ":/versions/LWJGL/2.9.1.json" false false with
    | error e => simp
    | ok lwjgl =>
      simp only [List.nil_append, List.singleton_append, readInstancePatches_def]
      cases h3 : (loadByUserOrder env inst (userOrder inst)
          [mc.setOrder (-2), (lwjgl.setOrder (-1)).setVanilla true]).thrown with
      | some e => simp [h3]
      | none =>
        cases h4 : scanPatches env inst (userOrder inst) inst.patchEntries [] with
        | error e => simp [h3]
        | ok files => simp [h3]


theorem scanPatches_congr (env : Collaborators) (inst₀ inst : OneSixInstance)
    (hpf : inst₀.patchFile = inst.patchFile) (uo : PatchOrder) (entries : List String) :
    ∀ files, scanPatches env inst₀ uo entries files = scanPatches env inst uo entries files := by
  induction entries with
  | nil => intro files; rfl
  | cons info rest ih =>
    intro files
    simp only [scanPatches, hpf, ih]

theorem buildInternal_congr (env : Collaborators) (inst₀ inst : OneSixInstance)
    (profile : MinecraftProfile)
    (hv : inst₀.intendedVersionId = inst.intendedVersionId)
    (hpf : inst₀.patchFile = inst.patchFile)
    (hpe : inst₀.patchEntries = inst.patchEntries)
    (huo : userOrder inst₀ = userOrder inst) :
    buildInternal env inst₀ profile = buildInternal env inst profile := by
  have hread : ∀ patches, readInstancePatches env inst₀ patches
      = readInstancePatches env inst patches := by
    intro patches
    rw [readInstancePatches_def, readInstancePatches_def, huo, hpe,
      loadByUserOrder_congr env inst₀ inst hpf, scanPatches_congr env inst₀ inst hpf]
  unfold buildInternal
  simp only [hv, hread]

theorem readOrderItems_ok (items : List QJsonValue) :
    ∀ order result : PatchOrder, readOrderItems items order = .ok result →
      ∃ ids : List String, items = ids.map QJsonValue.string ∧ result = order ++ ids := by
  induction items with
  | nil =>
    intro order result h
    simp only [readOrderItems, Except.ok.injEq] at h
    exact ⟨[], rfl, by simp [h]⟩
  | cons item rest ih =>
    intro order result h
    cases item with
    | string s =>
      simp only [readOrderItems, MMCJson.ensureString] at h
      obtain ⟨ids, h1, h2⟩ := ih _ _ h
      exact ⟨s :: ids, by simp [h1], by simp [h2]⟩
    | _ => simp [readOrderItems, MMCJson.ensureString] at h

theorem readOrderItems_strings (ids : List String) :
    ∀ order : PatchOrder,
      readOrderItems (ids.map QJsonValue.string) order = .ok (order ++ ids) := by
  induction ids with
  | nil => intro order; simp [readOrderItems]
  | cons id rest ih =>
    intro order
    simp [readOrderItems, MMCJson.ensureString, ih]

theorem readOrderDocument_ok (doc : QJsonValue) (order result : PatchOrder)
    (h : readOrderDocument doc order = .ok result) : OrderFileSchema doc := by
  unfold readOrderDocument at h
  cases doc with
  | object members =>
    simp only [MMCJson.ensureObject] at h
    cases hv : QJsonValue.value members "version" with
    | double d =>
      rw [hv] at h
      simp only [MMCJson.ensureInteger] at h
      by_cases hden : d.den = 1
      · rw [if_pos hden] at h
        simp only [ne_eq, ite_not] at h
        by_cases hnum : d.num = currentOrderFileVersion
        · rw [if_pos hnum] at h
          cases ho : QJsonValue.value members "order" with
          | array items =>
            rw [ho] at h
            simp only [MMCJson.ensureArray] at h
            obtain ⟨ids, hids, -⟩ := readOrderItems_ok items _ _ h
            have hd : d = 1 :=
              Rat.ext (by simpa [currentOrderFileVersion] using hnum) (by simpa using hden)
            exact ⟨members, ids, rfl, by rw [hv, hd], by rw [ho, hids]⟩
          | _ => rw [ho] at h; simp [MMCJson.ensureArray] at h
        · rw [if_neg hnum] at h; cases h
      · rw [if_neg hden] at h; cases h
    | _ => rw [hv] at h; simp [MMCJson.ensureInteger] at h
  | _ => simp [MMCJson.ensureObject] at h

end VersionBuilder

theorem loader_eq (env : Collaborators) (inst : OneSixInstance) (profile : MinecraftProfile)
    (r : Outcome MinecraftProfile)
    (hr : r = VersionBuilder.buildInternal env inst profile ∨
      r = OneSixProfileStrategy.load env inst profile) :
    r = VersionBuilder.buildInternal env inst profile := by
  rcases hr with hr | hr
  · exact hr
  · rw [hr, OneSixProfileStrategy.load_eq_buildInternal]

namespace VersionBuilder

end VersionBuilder

theorem QMap.nodup_of_ordered {V : Type} (m : QMap V) (h : QMap.Ordered m) : m.Nodup := by
  have hk : (QMap.keys m).Nodup := h.imp (fun hab => ne_of_lt hab)
  exact List.Nodup.of_map _ hk

namespace MinecraftProfile

theorem applyAll_patches (env : Collaborators) (files : List ProfilePatch) :
    ∀ p : MinecraftProfile, (applyAll env files p).state.VersionPatches = p.VersionPatches := by
  induction files with
  | nil => intro p; rfl
  | cons file rest ih =>
    intro p
    unfold applyAll
    cases h : env.applyTo file p with
    | error e => rfl
    | ok p1 => simp only [ih]

theorem reapply_patches (env : Collaborators) (p : MinecraftProfile) :
    (reapply env p).state.VersionPatches = p.VersionPatches := by
  have h : (applyAll env p.VersionPatches (clear p)).state.VersionPatches = p.VersionPatches :=
    applyAll_patches env p.VersionPatches (clear p)
  unfold reapply
  simp only
  split
  · exact h
  · exact h

theorem swap_getElem?_of_ne (l : List ProfilePatch) (i j k : Nat) (hi : k ≠ i) (hj : k ≠ j) :
    (swap l i j)[k]? = l[k]? := by
  unfold swap
  cases h1 : l[i]? with
  | none => rfl
  | some a =>
    cases h2 : l[j]? with
    | none => rfl
    | some b =>
      simp only
      rw [List.getElem?_set_ne (Ne.symm hj), List.getElem?_set_ne (Ne.symm hi)]

theorem versionPatch_eq_some (p : MinecraftProfile) (index : Int) (patch : ProfilePatch)
    (h : versionPatch p index = some patch) :
    0 ≤ index ∧ p.VersionPatches[index.toNat]? = some patch := by
  unfold versionPatch at h
  split_ifs at h with hc
  exact ⟨by omega, h⟩

end MinecraftProfile

/-- Every file of the directory scan whose id is no builtin id and is not an id of the order
file is in the list of a load that completes; with no order file this is every file whose id
is no builtin id, a patch file written by `installJarMod` included. -/
theorem kept_files_are_loaded (env : Collaborators) (inst : OneSixInstance)
    (profile : MinecraftProfile)
    (h : (VersionBuilder.buildInternal env inst profile).thrown = none)
    (info : String) (file : ProfilePatch) (hmem : info ∈ inst.patchEntries)
    (hparse : VersionBuilder.parseEntry env inst info = .ok file)
    (hkept : VersionBuilder.Kept (VersionBuilder.userOrder inst) file) :
    file ∈ (VersionBuilder.buildInternal env inst profile).state.VersionPatches := by
  obtain ⟨mc, lwjgl, ordered, files, -, -, h3, -, -, h6⟩ :=
    VersionBuilder.buildInternal_ok env inst profile h
  have hspec := VersionBuilder.scanPatches_spec env inst _ _ [] files h6 List.Pairwise.nil
  have hin := hspec.2.2.2 info hmem file hparse hkept
  rw [h3]
  refine List.mem_cons_of_mem _ (List.mem_cons_of_mem _ (List.mem_append_right _ ?_))
  exact List.mem_map.2 ⟨_, hin, rfl⟩

/-- An order document of version 2 does not have the schema. -/
theorem not_schema_of_version_two (ids : List String) :
    ¬ OrderFileSchema (Sample.orderDoc 2 ids) := by
  rintro ⟨members, ids', hdoc, hver, -⟩
  simp only [Sample.orderDoc, QJsonValue.object.injEq] at hdoc
  subst hdoc
  simp only [QJsonValue.value, if_true, QJsonValue.double.injEq] at hver
  norm_num at hver

/-! ## The loader: claims -/

/-- C1. Whenever the loader (`VersionBuilder::buildInternal` or `OneSixProfileStrategy::load`)
completes without an exception, the patch list starts with the engine-version builtin of the
catalog, carrying order -2, at index 0, followed by the bundled library builtin, carrying
order -1, at index 1, whatever the order file and the patches directory hold. -/
theorem builtins_first_after_load (env : Collaborators) (inst : OneSixInstance)
    (profile : MinecraftProfile) (r : Outcome MinecraftProfile)
    (hr : r = VersionBuilder.buildInternal env inst profile ∨
      r = OneSixProfileStrategy.load env inst profile)
    (h : r.thrown = none) :
    ∃ (mc lwjgl : ProfilePatch) (rest : List ProfilePatch),
      env.findVersion inst.intendedVersionId = some mc ∧
      VersionBuilder.parseJsonFile env env.lwjglResource ":/versions/LWJGL/2.9.1.json"
        false false = .ok lwjgl ∧
      r.state.VersionPatches
        = mc.setOrder (-2) :: (lwjgl.setOrder (-1)).setVanilla true :: rest ∧
      r.state.VersionPatches[0]? = some (mc.setOrder (-2)) ∧
      (r.state.VersionPatches[0]?).map (fun p => p.order) = some (-2) ∧
      r.state.VersionPatches[1]? = some ((lwjgl.setOrder (-1)).setVanilla true) ∧
      (r.state.VersionPatches[1]?).map (fun p => p.order) = some (-1) := by
  have hr' : r = VersionBuilder.buildInternal env inst profile := by
    rcases hr with hr | hr
    · exact hr
    · rw [hr, OneSixProfileStrategy.load_eq_buildInternal]
  subst hr'
  obtain ⟨mc, lwjgl, ordered, files, h1, h2, h3, -⟩ :=
    VersionBuilder.buildInternal_ok env inst profile h
  refine ⟨mc, lwjgl, _, h1, h2, h3, ?_, ?_, ?_, ?_⟩ <;> rw [h3] <;>
    simp [ProfilePatch.setOrder, ProfilePatch.setVanilla]

/-- C1 on the installation with the single user patch `my.mod.json`. -/
theorem builtins_first_after_load_witness :
    (VersionBuilder.buildInternal Sample.env Sample.singlePatch Sample.emptyProfile).thrown
      = none ∧
    ∃ (mc lwjgl : ProfilePatch) (rest : List ProfilePatch),
      Sample.env.findVersion Sample.singlePatch.intendedVersionId = some mc ∧
      VersionBuilder.parseJsonFile Sample.env Sample.env.lwjglResource
        ":/versions/LWJGL/2.9.1.json" false false = .ok lwjgl ∧
      (VersionBuilder.buildInternal Sample.env Sample.singlePatch
        Sample.emptyProfile).state.VersionPatches
        = mc.setOrder (-2) :: (lwjgl.setOrder (-1)).setVanilla true :: rest ∧
      (VersionBuilder.buildInternal Sample.env Sample.singlePatch
        Sample.emptyProfile).state.VersionPatches[0]? = some (mc.setOrder (-2)) ∧
      ((VersionBuilder.buildInternal Sample.env Sample.singlePatch
        Sample.emptyProfile).state.VersionPatches[0]?).map (fun p => p.order) = some (-2) ∧
      (VersionBuilder.buildInternal Sample.env Sample.singlePatch
        Sample.emptyProfile).state.VersionPatches[1]?
        = some ((lwjgl.setOrder (-1)).setVanilla true) ∧
      ((VersionBuilder.buildInternal Sample.env Sample.singlePatch
        Sample.emptyProfile).state.VersionPatches[1]?).map (fun p => p.order) = some (-1) :=
  ⟨by decide,
    builtins_first_after_load Sample.env Sample.singlePatch Sample.emptyProfile _ (Or.inl rfl)
      (by decide)⟩

/-- C3. If the order file lists an id that is no builtin id, the file `<id>.json` exists and
parses, and the parsed document carries another id than the one listed, the load throws: it
does not complete with a list. -/
theorem identity_mismatch_aborts_load (env : Collaborators) (inst : OneSixInstance)
    (profile : MinecraftProfile) (r : Outcome MinecraftProfile)
    (hr : r = VersionBuilder.buildInternal env inst profile ∨
      r = OneSixProfileStrategy.load env inst profile)
    (id : String) (file : ProfilePatch)
    (hid : id ∈ VersionBuilder.userOrder inst)
    (hmc : id ≠ "net.minecraft") (hlwjgl : id ≠ "org.lwjgl")
    (hexists : (inst.patchFile (id ++ ".json")).isSome = true)
    (hparse : VersionBuilder.parseById env inst id = .ok file)
    (hne : file.fileId ≠ id) :
    ∃ e, r.thrown = some e := by
  have hr' := loader_eq env inst profile r hr
  subst hr'
  cases hthr : (VersionBuilder.buildInternal env inst profile).thrown with
  | some e => exact ⟨e, rfl⟩
  | none =>
    exfalso
    obtain ⟨mc, lwjgl, ordered, files, -, -, -, h4, h5, -⟩ :=
      VersionBuilder.buildInternal_ok env inst profile hthr
    have hmem : id ∈ VersionBuilder.presentIds inst (VersionBuilder.userOrder inst) := by
      simp [VersionBuilder.presentIds, hid, hmc, hlwjgl, hexists]
    rw [← h4] at hmem
    obtain ⟨p, hp, hpid⟩ := List.mem_map.1 hmem
    have hq := h5 p hp
    have hpid' : p.fileId = id := hpid
    rw [hpid', hparse] at hq
    exact hne ((Except.ok.inj hq) ▸ hpid')

/-- C3 on an order file that lists `b` while `b.json` declares the id `c`. -/
theorem identity_mismatch_aborts_load_witness :
    "b" ∈ VersionBuilder.userOrder Sample.mismatch ∧
    VersionBuilder.parseById Sample.env Sample.mismatch "b"
      = .ok (Sample.parsed "b.json" "c" 2) ∧
    ∃ e, (VersionBuilder.buildInternal Sample.env Sample.mismatch Sample.emptyProfile).thrown
      = some e :=
  ⟨by decide, rfl,
    identity_mismatch_aborts_load Sample.env Sample.mismatch Sample.emptyProfile _ (Or.inl rfl)
      "b" _ (by decide) (by decide) (by decide) (by decide) rfl (by decide)⟩

/-- C5. If the patches directory holds two distinct files that both parse, carry ids that are
neither a builtin id nor listed in the order file, and declare the same order hint, the load
throws. -/
theorem equal_order_hints_abort_load (env : Collaborators) (inst : OneSixInstance)
    (profile : MinecraftProfile) (r : Outcome MinecraftProfile)
    (hr : r = VersionBuilder.buildInternal env inst profile ∨
      r = OneSixProfileStrategy.load env inst profile)
    (info₁ info₂ : String) (file₁ file₂ : ProfilePatch)
    (hmem₁ : info₁ ∈ inst.patchEntries) (hmem₂ : info₂ ∈ inst.patchEntries)
    (hdistinct : info₁ ≠ info₂)
    (hparse₁ : VersionBuilder.parseEntry env inst info₁ = .ok file₁)
    (hparse₂ : VersionBuilder.parseEntry env inst info₂ = .ok file₂)
    (hkept₁ : VersionBuilder.Kept (VersionBuilder.userOrder inst) file₁)
    (hkept₂ : VersionBuilder.Kept (VersionBuilder.userOrder inst) file₂)
    (horder : file₁.order = file₂.order) :
    ∃ e, r.thrown = some e := by
  have hr' := loader_eq env inst profile r hr
  subst hr'
  cases hthr : (VersionBuilder.buildInternal env inst profile).thrown with
  | some e => exact ⟨e, rfl⟩
  | none =>
    exfalso
    obtain ⟨mc, lwjgl, ordered, files, -, -, -, -, -, h6⟩ :=
      VersionBuilder.buildInternal_ok env inst profile hthr
    have hspec := VersionBuilder.scanPatches_spec env inst _ _ [] files h6 List.Pairwise.nil
    have m₁ := hspec.2.2.2 info₁ hmem₁ file₁ hparse₁ hkept₁
    have m₂ := hspec.2.2.2 info₂ hmem₂ file₂ hparse₂ hkept₂
    have := QMap.eq_of_key_eq files hspec.1 _ _ m₁ m₂ horder
    exact hdistinct (congrArg (fun x => x.2.1) this)

/-- C5 on `x.json` and `y.json`, both of order 5. -/
theorem equal_order_hints_abort_load_witness :
    VersionBuilder.parseEntry Sample.env Sample.sameOrder "x.json"
      = .ok (Sample.parsed "x.json" "x" 5) ∧
    VersionBuilder.parseEntry Sample.env Sample.sameOrder "y.json"
      = .ok (Sample.parsed "y.json" "y" 5) ∧
    ∃ e, (VersionBuilder.buildInternal Sample.env Sample.sameOrder Sample.emptyProfile).thrown
      = some e :=
  ⟨rfl, rfl,
    equal_order_hints_abort_load Sample.env Sample.sameOrder Sample.emptyProfile _ (Or.inl rfl)
      "x.json" "y.json" _ _ (by decide) (by decide) (by decide) rfl rfl
      ⟨by decide, by decide, by decide⟩ ⟨by decide, by decide, by decide⟩ rfl⟩

/-- C6. An order file that is valid JSON but does not have the schema (its "version" is
missing or is not the integer 1, or its "order" is not an array of strings) makes
`readOverrideOrders` return false with an empty order list, and the load then behaves exactly
as with no order file: same patch list, same exception or none. -/
theorem bad_order_file_is_ignored (doc : QJsonValue) (hbad : ¬ OrderFileSchema doc) :
    (∀ order : PatchOrder,
      VersionBuilder.readOverrideOrders (some (.json doc)) order = (false, [])) ∧
    (∀ (env : Collaborators) (inst : OneSixInstance) (profile : MinecraftProfile),
      inst.orderFile = some (.json doc) →
      VersionBuilder.buildInternal env inst profile
        = VersionBuilder.buildInternal env { inst with orderFile := none } profile ∧
      OneSixProfileStrategy.load env inst profile
        = OneSixProfileStrategy.load env { inst with orderFile := none } profile) := by
  have hread : ∀ order : PatchOrder,
      VersionBuilder.readOverrideOrders (some (.json doc)) order = (false, []) := by
    intro order
    simp only [VersionBuilder.readOverrideOrders]
    cases h : VersionBuilder.readOrderDocument doc order with
    | error e => rfl
    | ok result => exact absurd (VersionBuilder.readOrderDocument_ok doc order result h) hbad
  refine ⟨hread, ?_⟩
  intro env inst profile hfile
  have hb : VersionBuilder.buildInternal env inst profile
      = VersionBuilder.buildInternal env { inst with orderFile := none } profile := by
    refine VersionBuilder.buildInternal_congr env inst { inst with orderFile := none } profile
      rfl rfl rfl ?_
    simp only [VersionBuilder.userOrder, hfile, hread]
    rfl
  exact ⟨hb, by rw [OneSixProfileStrategy.load_eq_buildInternal,
    OneSixProfileStrategy.load_eq_buildInternal, hb]⟩

/-- C6 on an order file of version 2. -/
theorem bad_order_file_is_ignored_witness :
    ¬ OrderFileSchema (Sample.orderDoc 2 ["my.mod"]) ∧
    (∀ order : PatchOrder,
      VersionBuilder.readOverrideOrders (some (.json (Sample.orderDoc 2 ["my.mod"]))) order
        = (false, [])) ∧
    (VersionBuilder.buildInternal Sample.env Sample.wrongVersion Sample.emptyProfile
        = VersionBuilder.buildInternal Sample.env
            { Sample.wrongVersion with orderFile := none } Sample.emptyProfile ∧
      OneSixProfileStrategy.load Sample.env Sample.wrongVersion Sample.emptyProfile
        = OneSixProfileStrategy.load Sample.env
            { Sample.wrongVersion with orderFile := none } Sample.emptyProfile) :=
  ⟨not_schema_of_version_two _,
    (bad_order_file_is_ignored _ (not_schema_of_version_two ["my.mod"])).1,
    (bad_order_file_is_ignored _ (not_schema_of_version_two ["my.mod"])).2 Sample.env
      Sample.wrongVersion Sample.emptyProfile rfl⟩

/-- C8, the code at the failing input. The order file lists `a`, there is no `a.json`, and
`b.json` of the patches directory declares the id `a` with order 5. Nothing is loaded through
the order file, the id of `b.json` is no builtin id, the load completes, and the list holds
the two builtins only: the patch of `b.json` is not in it. -/
theorem scan_drops_file_with_listed_id :
    "b.json" ∈ Sample.strayId.patchEntries ∧
    VersionBuilder.parseEntry Sample.env Sample.strayId "b.json"
      = .ok (Sample.parsed "b.json" "a" 5) ∧
    VersionBuilder.presentIds Sample.strayId (VersionBuilder.userOrder Sample.strayId) = [] ∧
    (VersionBuilder.buildInternal Sample.env Sample.strayId Sample.emptyProfile).thrown
      = none ∧
    (VersionBuilder.buildInternal Sample.env Sample.strayId
      Sample.emptyProfile).state.VersionPatches
      = [Sample.minecraft.setOrder (-2), (Sample.lwjgl.setOrder (-1)).setVanilla true] ∧
    Sample.parsed "b.json" "a" 5 ∉ (VersionBuilder.buildInternal Sample.env Sample.strayId
      Sample.emptyProfile).state.VersionPatches := by
  refine ⟨by decide, rfl, by decide, by decide, by decide, by decide⟩

/-- C9, counterexample. The order file lists `a` twice and `a.json` exists: the load completes
and the patch `a` is in the list twice. -/
theorem duplicate_order_entry_loads_twice :
    (VersionBuilder.buildInternal Sample.env Sample.duplicateOrder Sample.emptyProfile).thrown
      = none ∧
    (VersionBuilder.buildInternal Sample.env Sample.duplicateOrder
      Sample.emptyProfile).state.VersionPatches.map (fun p => p.fileId)
      = ["net.minecraft", "org.lwjgl", "a", "a"] ∧
    ¬ ((VersionBuilder.buildInternal Sample.env Sample.duplicateOrder
      Sample.emptyProfile).state.VersionPatches.map (fun p => p.fileId)).Nodup := by
  refine ⟨by decide, by decide, by decide⟩

/-- C9, as the code has it. After a load that completes the patch ids of the list are pairwise
distinct provided that the order file lists no id twice, that no two files of the patches
directory declare the same id, and that the two builtins carry the ids `net.minecraft` and
`org.lwjgl`. -/
theorem patch_ids_distinct_after_load (env : Collaborators) (inst : OneSixInstance)
    (profile : MinecraftProfile) (r : Outcome MinecraftProfile)
    (hr : r = VersionBuilder.buildInternal env inst profile ∨
      r = OneSixProfileStrategy.load env inst profile)
    (h : r.thrown = none)
    (horder : (VersionBuilder.userOrder inst).Nodup)
    (hfiles : ∀ info₁ ∈ inst.patchEntries, ∀ info₂ ∈ inst.patchEntries,
      ∀ file₁ file₂ : ProfilePatch,
        VersionBuilder.parseEntry env inst info₁ = .ok file₁ →
        VersionBuilder.parseEntry env inst info₂ = .ok file₂ →
        file₁.fileId = file₂.fileId → info₁ = info₂)
    (hmc : ∀ mc, env.findVersion inst.intendedVersionId = some mc →
      mc.fileId = "net.minecraft")
    (hlwjgl : ∀ lwjgl, VersionBuilder.parseJsonFile env env.lwjglResource
      ":/versions/LWJGL/2.9.1.json" false false = .ok lwjgl → lwjgl.fileId = "org.lwjgl") :
    (r.state.VersionPatches.map (fun p => p.fileId)).Nodup := by
  have hr' := loader_eq env inst profile r hr
  subst hr'
  obtain ⟨mc, lwjgl, ordered, files, h1, h2, h3, h4, -, h6⟩ :=
    VersionBuilder.buildInternal_ok env inst profile h
  have hspec := VersionBuilder.scanPatches_spec env inst _ _ [] files h6 List.Pairwise.nil
  have hfrom : ∀ x ∈ files, x.2.1 ∈ inst.patchEntries ∧
      VersionBuilder.parseEntry env inst x.2.1 = .ok x.2.2 ∧ x.1 = x.2.2.order ∧
      VersionBuilder.Kept (VersionBuilder.userOrder inst) x.2.2 := by
    intro x hx
    rcases hspec.2.2.1 x hx with hx' | hx'
    · cases hx'
    · exact hx'
  have hpresent : ∀ id ∈ VersionBuilder.presentIds inst (VersionBuilder.userOrder inst),
      id ∈ VersionBuilder.userOrder inst ∧ id ≠ "net.minecraft" ∧ id ≠ "org.lwjgl" := by
    intro id hid
    simp only [VersionBuilder.presentIds, List.mem_filter, Bool.and_eq_true,
      decide_eq_true_eq] at hid
    exact ⟨hid.1, hid.2.1.1, hid.2.1.2⟩
  have hscanned : ∀ id ∈ (files.map (fun kv => kv.2.2)).map (fun p => p.fileId),
      id ∉ VersionBuilder.userOrder inst ∧ id ≠ "net.minecraft" ∧ id ≠ "org.lwjgl" := by
    intro id hid
    simp only [List.map_map, List.mem_map, Function.comp] at hid
    obtain ⟨x, hx, rfl⟩ := hid
    obtain ⟨-, -, -, k1, k2, k3⟩ := hfrom x hx
    exact ⟨k3, k1, k2⟩
  have hnd_present : (VersionBuilder.presentIds inst (VersionBuilder.userOrder inst)).Nodup :=
    horder.filter _
  have hnd_scanned : ((files.map (fun kv => kv.2.2)).map (fun p => p.fileId)).Nodup := by
    rw [List.map_map]
    refine List.Nodup.map_on ?_ (QMap.nodup_of_ordered files hspec.1)
    intro x hx y hy hxy
    have hx' := hfrom x hx
    have hy' := hfrom y hy
    have hinfo : x.2.1 = y.2.1 := hfiles _ hx'.1 _ hy'.1 _ _ hx'.2.1 hy'.2.1 hxy
    have hfile : x.2.2 = y.2.2 := by
      have := hx'.2.1
      rw [hinfo, hy'.2.1] at this
      exact (Except.ok.inj this).symm
    have hkey : x.1 = y.1 := by rw [hx'.2.2.1, hy'.2.2.1, hfile]
    exact QMap.eq_of_key_eq files hspec.1 x y hx hy hkey
  have hrest : (VersionBuilder.presentIds inst (VersionBuilder.userOrder inst) ++
      (files.map (fun kv => kv.2.2)).map (fun p => p.fileId)).Nodup := by
    refine List.Nodup.append hnd_present hnd_scanned ?_
    intro id hid1 hid2
    exact (hscanned id hid2).1 (hpresent id hid1).1
  rw [h3]
  simp only [List.map_cons, List.map_append, h4, ProfilePatch.setOrder, ProfilePatch.setVanilla,
    hmc mc h1, hlwjgl lwjgl h2]
  refine List.nodup_cons.2 ⟨?_, List.nodup_cons.2 ⟨?_, hrest⟩⟩
  · intro hmem
    rcases List.mem_cons.1 hmem with heq | hmem
    · exact absurd heq (by decide)
    · rcases List.mem_append.1 hmem with hm | hm
      · exact (hpresent _ hm).2.1 rfl
      · exact (hscanned _ hm).2.1 rfl
  · intro hmem
    rcases List.mem_append.1 hmem with hm | hm
    · exact (hpresent _ hm).2.2 rfl
    · exact (hscanned _ hm).2.2 rfl

/-- C9 as amended, on an order file without repetition and files with distinct ids. -/
theorem patch_ids_distinct_after_load_witness :
    (VersionBuilder.buildInternal Sample.env Sample.withMissingId Sample.emptyProfile).thrown
      = none ∧
    (VersionBuilder.userOrder Sample.withMissingId).Nodup ∧
    ((VersionBuilder.buildInternal Sample.env Sample.withMissingId
      Sample.emptyProfile).state.VersionPatches.map (fun p => p.fileId)).Nodup :=
  ⟨by decide, by decide,
    patch_ids_distinct_after_load Sample.env Sample.withMissingId Sample.emptyProfile _
      (Or.inl rfl) (by decide) (by decide)
      (by
        intro info₁ h₁ info₂ h₂ file₁ file₂ p₁ p₂ hid
        have e₁ : info₁ = "my.mod.json" ∨ info₁ = "other.json" := by
          simpa [Sample.withMissingId, Sample.instanceOf] using h₁
        have e₂ : info₂ = "my.mod.json" ∨ info₂ = "other.json" := by
          simpa [Sample.withMissingId, Sample.instanceOf] using h₂
        rcases e₁ with rfl | rfl <;> rcases e₂ with rfl | rfl
        · rfl
        · have q₁ : VersionBuilder.parseEntry Sample.env Sample.withMissingId "my.mod.json"
              = .ok (Sample.parsed "my.mod.json" "my.mod" 150) := rfl
          have q₂ : VersionBuilder.parseEntry Sample.env Sample.withMissingId "other.json"
              = .ok (Sample.parsed "other.json" "other" 7) := rfl
          rw [q₁] at p₁; rw [q₂] at p₂
          rw [← Except.ok.inj p₁, ← Except.ok.inj p₂] at hid
          exact absurd hid (by decide)
        · have q₁ : VersionBuilder.parseEntry Sample.env Sample.withMissingId "my.mod.json"
              = .ok (Sample.parsed "my.mod.json" "my.mod" 150) := rfl
          have q₂ : VersionBuilder.parseEntry Sample.env Sample.withMissingId "other.json"
              = .ok (Sample.parsed "other.json" "other" 7) := rfl
          rw [q₂] at p₁; rw [q₁] at p₂
          rw [← Except.ok.inj p₁, ← Except.ok.inj p₂] at hid
          exact absurd hid (by decide)
        · rfl)
      (by
        intro mc hmc
        have : Sample.minecraft = mc := Option.some.inj hmc
        rw [← this]; rfl)
      (by
        intro lwjgl hl
        have : Sample.lwjgl = lwjgl := Except.ok.inj hl
        rw [← this]; rfl)⟩

namespace MinecraftProfile

theorem moveTarget_cases (p : MinecraftProfile) (index : Int) (direction : MoveDirection)
    (h0 : 0 ≤ index) (hlen : index < p.VersionPatches.length)
    (hne : index ≠ moveTarget p index direction) :
    (direction = .MoveDown ∧ moveTarget p index direction = index + 1 ∧
      index + 1 < p.VersionPatches.length) ∨
    (direction = .MoveUp ∧ 0 < index ∧ moveTarget p index direction = index - 1) ∨
    (direction = .MoveUp ∧ index = 0 ∧
      moveTarget p index direction = (p.VersionPatches.length : Int) - 1) := by
  unfold moveTarget rowCount at hne ⊢
  cases direction with
  | MoveUp =>
    simp only [if_true] at hne ⊢
    have h1 : ¬ (index - 1 ≥ (p.VersionPatches.length : Int)) := by omega
    rw [if_neg h1] at hne ⊢
    by_cases h2 : index - 1 = -1
    · rw [if_pos h2]
      exact Or.inr (Or.inr ⟨trivial, by omega, rfl⟩)
    · rw [if_neg h2]
      exact Or.inr (Or.inl ⟨trivial, by omega, rfl⟩)
  | MoveDown =>
    have hd : ¬ (MoveDirection.MoveDown = MoveDirection.MoveUp) := by decide
    simp only [hd, if_false] at hne ⊢
    by_cases h1 : index + 1 ≥ (p.VersionPatches.length : Int)
    · rw [if_pos h1] at hne
      have h2 : ¬ ((p.VersionPatches.length : Int) - 1 = -1) := by omega
      rw [if_neg h2] at hne
      exact absurd (by omega) hne
    · rw [if_neg h1]
      have h2 : ¬ (index + 1 = -1) := by omega
      rw [if_neg h2]
      exact Or.inl ⟨trivial, rfl, by omega⟩

end MinecraftProfile

namespace MinecraftProfile

theorem swap_eq_of_getElem? (l : List ProfilePatch) (i j : Nat) (a b : ProfilePatch)
    (ha : l[i]? = some a) (hb : l[j]? = some b) : swap l i j = (l.set i b).set j a := by
  simp only [swap, ha, hb]

theorem move_state_patches (env : Collaborators) (w : World) (index : Int)
    (direction : MoveDirection) :
    (move env w index direction).state.profile.VersionPatches = w.profile.VersionPatches ∨
    ∃ (src dst : ProfilePatch),
      0 ≤ index ∧ index < w.profile.VersionPatches.length ∧
      index ≠ moveTarget w.profile index direction ∧
      versionPatch w.profile index = some src ∧
      versionPatch w.profile (moveTarget w.profile index direction) = some dst ∧
      env.isMoveable src = true ∧ env.isMoveable dst = true ∧
      (move env w index direction).state.profile.VersionPatches
        = swap w.profile.VersionPatches index.toNat
            (moveTarget w.profile index direction).toNat ∧
      (move env w index direction).state.inst = (saveCurrentOrder env
        { w with profile := { w.profile with
            VersionPatches := (move env w index direction).state.profile.VersionPatches } }).inst := by
  unfold move
  by_cases hrange : index < 0 ∨ index ≥ w.profile.VersionPatches.length
  · rw [if_pos hrange]; exact Or.inl rfl
  rw [if_neg hrange]
  simp only
  by_cases heq : index = moveTarget w.profile index direction
  · rw [if_pos heq]; exact Or.inl rfl
  rw [if_neg heq]
  cases hsrc : versionPatch w.profile index with
  | none => exact Or.inl rfl
  | some src =>
    cases hdst : versionPatch w.profile (moveTarget w.profile index direction) with
    | none => exact Or.inl rfl
    | some dst =>
      simp only
      by_cases hmv : (!env.isMoveable dst || !env.isMoveable src) = true
      · rw [if_pos hmv]; exact Or.inl rfl
      rw [if_neg hmv]
      simp only [Bool.or_eq_true, Bool.not_eq_true', not_or, Bool.not_eq_false] at hmv
      refine Or.inr ⟨src, dst, by omega, by omega, heq, rfl, rfl, hmv.2, hmv.1, ?_, ?_⟩
      · rw [reapply_patches]; rfl
      · rw [reapply_patches]; rfl

end MinecraftProfile

theorem foldr_max_max (a b : Int) (ys : List Int) :
    ys.foldr max (max a b) = max a (ys.foldr max b) := by
  induction ys with
  | nil => rfl
  | cons y ys ih => simp only [List.foldr_cons, ih, max_left_comm]

theorem foldl_largest_eq (l : List ProfilePatch) :
    ∀ init : Int,
      l.foldl (fun largest thing => if thing.order > largest then thing.order else largest) init
        = (l.map (fun p => p.order)).foldr max init := by
  induction l with
  | nil => intro init; rfl
  | cons x xs ih =>
    intro init
    simp only [List.foldl_cons, List.map_cons, List.foldr_cons, ih]
    have hmax : (if x.order > init then x.order else init) = max x.order init := by
      by_cases h : x.order > init
      · rw [if_pos h, max_eq_left (le_of_lt h)]
      · rw [if_neg h, max_eq_right (not_lt.1 h)]
    rw [hmax, foldr_max_max]

theorem le_foldr_max (ys : List Int) (init : Int) :
    init ≤ ys.foldr max init ∧ ∀ y ∈ ys, y ≤ ys.foldr max init := by
  induction ys with
  | nil => exact ⟨le_refl _, fun y hy => by cases hy⟩
  | cons z zs ih =>
    refine ⟨le_trans ih.1 (le_max_right _ _), ?_⟩
    intro y hy
    rcases List.mem_cons.1 hy with rfl | hy
    · exact le_max_left _ _
    · exact le_trans (ih.2 y hy) (le_max_right _ _)

theorem foldr_max_le (ys : List Int) (init bound : Int) (hinit : init ≤ bound)
    (h : ∀ y ∈ ys, y ≤ bound) : ys.foldr max init ≤ bound := by
  induction ys with
  | nil => exact hinit
  | cons z zs ih =>
    exact max_le (h z (List.mem_cons_self _ _))
      (ih (fun y hy => h y (List.mem_cons_of_mem _ hy)))

theorem QString.endsWith_iff (s suffix : String) :
    QString.endsWith s suffix = true ↔ ∃ stem : String, s = stem ++ suffix := by
  unfold QString.endsWith
  rw [List.isSuffixOf_iff_suffix]
  constructor
  · rintro ⟨t, ht⟩
    refine ⟨⟨t⟩, ?_⟩
    apply String.ext
    rw [String.data_append, ht]
  · rintro ⟨stem, rfl⟩
    exact ⟨stem.data, by rw [String.data_append]⟩

theorem QString.left_append (stem suffix : String) :
    QString.left (stem ++ suffix) ((stem ++ suffix).length - suffix.length) = stem := by
  apply String.ext
  show (stem ++ suffix).data.take ((stem ++ suffix).data.length - suffix.data.length)
    = stem.data
  rw [String.data_append, List.length_append, Nat.add_sub_cancel, List.take_left']
  rfl

theorem MinecraftProfile.finalize_assets (env : Collaborators) (p : MinecraftProfile) :
    (MinecraftProfile.finalize env p).assets
      = if (if QString.endsWith p.assets "_af" = true ∧
              ¬ (env.currentDate.month = 4 ∧ env.currentDate.day = 1) then
            QString.left p.assets (p.assets.length - 3)
          else p.assets) = "" then "legacy"
        else (if QString.endsWith p.assets "_af" = true ∧
              ¬ (env.currentDate.month = 4 ∧ env.currentDate.day = 1) then
            QString.left p.assets (p.assets.length - 3)
          else p.assets) := rfl

theorem MinecraftProfile.finalizeArguments_spec (env : Collaborators)
    (template preset : String) :
    FinalizedFromPreset env.toLower template preset
      (MinecraftProfile.finalizeArguments env template preset) := by
  unfold FinalizedFromPreset MinecraftProfile.finalizeArguments
  refine ⟨?_, ?_, ?_, ?_, ?_⟩
  · intro h
    rw [if_pos h]
  · intro h h1
    rw [if_neg (not_not.2 h)]
    simp only [h1, if_true]
  · intro h h2
    rw [if_neg (not_not.2 h)]
    have h1 : ¬ ("username_session" = "legacy") := by decide
    simp only [h2, h1, if_false, if_true]
  · intro h h3
    rw [if_neg (not_not.2 h)]
    have h1 : ¬ ("username_session_version" = "legacy") := by decide
    have h2 : ¬ ("username_session_version" = "username_session") := by decide
    simp only [h3, h1, h2, if_false, if_true]
    decide
  · intro h h1 h2 h3
    rw [if_neg (not_not.2 h)]
    simp only [h1, h2, h3, if_false]
    exact h

theorem removeJarMod_frame (inst : OneSixInstance) (name : String) :
    (∃ f, (removeJarMod inst name).2 = { inst with jarModExists := f }) ∧
    (∀ n, n ≠ name → (removeJarMod inst name).2.jarModExists n = inst.jarModExists n) ∧
    (∀ n, (removeJarMod inst name).2.jarModExists n = true → inst.jarModExists n = true) ∧
    ((removeJarMod inst name).1 = true → (removeJarMod inst name).2.jarModExists name = false) := by
  unfold removeJarMod
  by_cases h : (inst.jarModExists name && inst.jarModRemovable name) = true
  · rw [if_pos h]
    refine ⟨⟨_, rfl⟩, ?_, ?_, ?_⟩
    · intro n hn
      simp [hn]
    · intro n hn
      by_cases hname : n = name
      · simp [hname] at hn
      · simpa [hname] using hn
    · intro _
      simp
  · rw [if_neg h]
    exact ⟨⟨_, rfl⟩, fun _ _ => rfl, fun _ hn => hn, fun hf => by cases hf⟩

namespace MinecraftProfile

theorem preremoveLoop_spec (jarmods : List String) :
    ∀ (ok : Bool) (inst : OneSixInstance),
      (∃ f, (preremoveLoop jarmods ok inst).2 = { inst with jarModExists := f }) ∧
      (∀ n, n ∉ jarmods →
        (preremoveLoop jarmods ok inst).2.jarModExists n = inst.jarModExists n) ∧
      (∀ n, (preremoveLoop jarmods ok inst).2.jarModExists n = true →
        inst.jarModExists n = true) ∧
      ((preremoveLoop jarmods ok inst).1 = true →
        ok = true ∧ ∀ n ∈ jarmods, (preremoveLoop jarmods ok inst).2.jarModExists n = false) := by
  induction jarmods with
  | nil =>
    intro ok inst
    exact ⟨⟨_, rfl⟩, fun _ _ => rfl, fun _ hn => hn, fun hok => ⟨hok, fun n hn => by cases hn⟩⟩
  | cons jarmod rest ih =>
    intro ok inst
    unfold preremoveLoop
    by_cases hex : inst.jarModExists jarmod = true
    · rw [if_pos hex]
      obtain ⟨f1, f2, f3, f4⟩ := removeJarMod_frame inst jarmod
      obtain ⟨i1, i2, i3, i4⟩ :=
        ih (ok && (removeJarMod inst jarmod).1) (removeJarMod inst jarmod).2
      refine ⟨?_, ?_, ?_, ?_⟩
      · obtain ⟨f, hf⟩ := f1
        obtain ⟨g, hg⟩ := i1
        exact ⟨g, hg.trans (by rw [hf])⟩
      · intro n hn
        simp only [List.mem_cons, not_or] at hn
        rw [i2 n hn.2, f2 n hn.1]
      · intro n hn
        exact f3 n (i3 n hn)
      · intro hok
        obtain ⟨hand, hall⟩ := i4 hok
        simp only [Bool.and_eq_true] at hand
        refine ⟨hand.1, ?_⟩
        intro n hn
        rcases List.mem_cons.1 hn with rfl | hn
        · by_contra hcon
          have := i3 n (by simpa using hcon)
          rw [f4 hand.2] at this
          cases this
        · exact hall n hn
    · rw [if_neg hex]
      obtain ⟨i1, i2, i3, i4⟩ := ih ok inst
      refine ⟨i1, ?_, i3, ?_⟩
      · intro n hn
        simp only [List.mem_cons, not_or] at hn
        exact i2 n hn.2
      · intro hok
        obtain ⟨hok', hall⟩ := i4 hok
        refine ⟨hok', ?_⟩
        intro n hn
        rcases List.mem_cons.1 hn with rfl | hn
        · by_contra hcon
          exact hex (i3 n (by simpa using hcon))
        · exact hall n hn

theorem preremove_spec (inst : OneSixInstance) (patch : ProfilePatch) :
    (∃ f, (preremove inst patch).2 = { inst with jarModExists := f }) ∧
    (∀ n, n ∉ patch.jarMods → (preremove inst patch).2.jarModExists n = inst.jarModExists n) ∧
    (∀ n, (preremove inst patch).2.jarModExists n = true → inst.jarModExists n = true) ∧
    ((preremove inst patch).1 = true →
      ∀ n ∈ patch.jarMods, (preremove inst patch).2.jarModExists n = false) := by
  obtain ⟨h1, h2, h3, h4⟩ := preremoveLoop_spec patch.jarMods true inst
  exact ⟨h1, h2, h3, fun hok => (h4 hok).2⟩

end MinecraftProfile

theorem removePatchFile_spec (inst : OneSixInstance) (name : String) :
    ((removePatchFile inst name).1 = false → (removePatchFile inst name).2 = inst) ∧
    ((removePatchFile inst name).1 = true →
      (removePatchFile inst name).2.patchFile name = none) ∧
    (∀ n, inst.patchFile n = none → (removePatchFile inst name).2.patchFile n = none) ∧
    (removePatchFile inst name).2.jarModExists = inst.jarModExists ∧
    (removePatchFile inst name).2.orderFile = inst.orderFile ∧
    (removePatchFile inst name).2.orderFileWritable = inst.orderFileWritable := by
  unfold removePatchFile
  by_cases h : ((inst.patchFile name).isSome && inst.patchFileRemovable name) = true
  · rw [if_pos h]
    refine ⟨fun hf => (by cases hf), fun _ => (by simp), ?_, rfl, rfl, rfl⟩
    intro n hn
    by_cases hname : n = name
    · simp [hname]
    · simpa [hname] using hn
  · rw [if_neg h]
    exact ⟨fun _ => rfl, fun hf => (by cases hf), fun _ hn => hn, rfl, rfl, rfl⟩

theorem VersionBuilder.userOrder_writeOverrideOrders (inst : OneSixInstance) (order : PatchOrder)
    (hw : inst.orderFileWritable = true) :
    VersionBuilder.userOrder (VersionBuilder.writeOverrideOrders inst order).2 = order := by
  unfold VersionBuilder.writeOverrideOrders VersionBuilder.userOrder
  rw [if_pos hw]
  have hitems := VersionBuilder.readOrderItems_strings order []
  simp only [List.nil_append] at hitems
  simp [VersionBuilder.readOverrideOrders, VersionBuilder.readOrderDocument,
    MMCJson.ensureObject, MMCJson.ensureInteger, MMCJson.ensureArray, QJsonValue.value,
    VersionBuilder.currentOrderFileVersion, hitems]

theorem VersionBuilder.writeOverrideOrders_frame (inst : OneSixInstance) (order : PatchOrder) :
    ∃ file, (VersionBuilder.writeOverrideOrders inst order).2 = { inst with orderFile := file } := by
  unfold VersionBuilder.writeOverrideOrders
  by_cases hw : inst.orderFileWritable = true
  · rw [if_pos hw]; exact ⟨_, rfl⟩
  · rw [if_neg hw]; exact ⟨_, rfl⟩

theorem MinecraftProfile.saveCurrentOrder_frame (env : Collaborators) (w : World) :
    (MinecraftProfile.saveCurrentOrder env w).profile = w.profile ∧
    ∃ file, (MinecraftProfile.saveCurrentOrder env w).inst = { w.inst with orderFile := file } :=
  ⟨rfl, VersionBuilder.writeOverrideOrders_frame _ _⟩

theorem MinecraftProfile.userOrder_saveCurrentOrder (env : Collaborators) (w : World)
    (hw : w.inst.orderFileWritable = true) :
    VersionBuilder.userOrder (MinecraftProfile.saveCurrentOrder env w).inst
      = MinecraftProfile.currentOrder env w.profile :=
  VersionBuilder.userOrder_writeOverrideOrders _ _ hw

namespace MinecraftProfile

/-- The five ways through `remove`: refusal, failed `preremove`, failed removal of the patch
file, exception of `reapply`, success. -/
theorem remove_cases (env : Collaborators) (w : World) (index : Int) :
    (remove env w index = ⟨w, some false, none⟩ ∧
      ∀ patch, versionPatch w.profile index = some patch → env.isMoveable patch = false) ∨
    ∃ patch : ProfilePatch,
      versionPatch w.profile index = some patch ∧ env.isMoveable patch = true ∧
      (((preremove w.inst patch).1 = false ∧
          remove env w index = ⟨{ w with inst := (preremove w.inst patch).2 }, some false, none⟩) ∨
        ((preremove w.inst patch).1 = true ∧
          (removePatchFile (preremove w.inst patch).2 patch.filename).1 = false ∧
          remove env w index = ⟨{ w with inst := (preremove w.inst patch).2 }, some false, none⟩) ∨
        ((preremove w.inst patch).1 = true ∧
          (removePatchFile (preremove w.inst patch).2 patch.filename).1 = true ∧
          ∃ e, (reapply env { w.profile with
              VersionPatches := w.profile.VersionPatches.eraseIdx index.toNat }).thrown = some e ∧
            remove env w index = ⟨⟨(reapply env { w.profile with
                VersionPatches := w.profile.VersionPatches.eraseIdx index.toNat }).state,
              (removePatchFile (preremove w.inst patch).2 patch.filename).2⟩, none, some e⟩) ∨
        ((preremove w.inst patch).1 = true ∧
          (removePatchFile (preremove w.inst patch).2 patch.filename).1 = true ∧
          (reapply env { w.profile with
              VersionPatches := w.profile.VersionPatches.eraseIdx index.toNat }).thrown = none ∧
          remove env w index = ⟨saveCurrentOrder env ⟨(reapply env { w.profile with
                VersionPatches := w.profile.VersionPatches.eraseIdx index.toNat }).state,
              (removePatchFile (preremove w.inst patch).2 patch.filename).2⟩,
            some true, none⟩)) := by
  unfold remove
  cases hp : versionPatch w.profile index with
  | none =>
    left
    refine ⟨?_, fun patch hpatch => by cases hpatch⟩
    simp [canRemove, hp]
  | some patch =>
    by_cases hm : env.isMoveable patch = true
    · right
      refine ⟨patch, rfl, hm, ?_⟩
      have hcan : ¬ ((!canRemove env w.profile index) = true) := by
        simp [canRemove, hp, hm]
      rw [if_neg hcan]
      simp only
      cases hpre : (preremove w.inst patch).1 with
      | false => left; simp
      | true =>
        right
        cases hdel : (removePatchFile (preremove w.inst patch).2 patch.filename).1 with
        | false =>
          left
          have := (removePatchFile_spec (preremove w.inst patch).2 patch.filename).1 hdel
          simp [this]
        | true =>
          right
          cases hthr : (reapply env { w.profile with
              VersionPatches := w.profile.VersionPatches.eraseIdx index.toNat }).thrown with
          | some e => left; simp
          | none => right; simp
    · left
      have hm' : env.isMoveable patch = false := by simpa using hm
      refine ⟨?_, fun patch' hpatch' => by cases hpatch'; exact hm'⟩
      simp [canRemove, hp, hm']

end MinecraftProfile

namespace MinecraftProfile

theorem preremove_patchFile (inst : OneSixInstance) (patch : ProfilePatch) :
    (preremove inst patch).2.patchFile = inst.patchFile := by
  obtain ⟨⟨f, hf⟩, -⟩ := preremove_spec inst patch
  rw [hf]

theorem revertLoop_spec (env : Collaborators) (l : List ProfilePatch) :
    ∀ (kept : List ProfilePatch) (inst : OneSixInstance),
      (∀ n, inst.patchFile n = none → (revertLoop env l kept inst).2.2.patchFile n = none) ∧
      ((revertLoop env l kept inst).1 = true →
        (revertLoop env l kept inst).2.1 = kept ++ l.filter (fun p => !env.isMoveable p) ∧
        ∀ p ∈ l, env.isMoveable p = true →
          (revertLoop env l kept inst).2.2.patchFile p.filename = none) := by
  induction l with
  | nil =>
    intro kept inst
    exact ⟨fun _ hn => hn, fun _ => ⟨by simp [revertLoop], fun p hp => by cases hp⟩⟩
  | cons patch rest ih =>
    intro kept inst
    unfold revertLoop
    by_cases hm : env.isMoveable patch = true
    · rw [if_pos hm]
      have hpf := preremove_patchFile inst patch
      obtain ⟨-, d2, d3, -⟩ := removePatchFile_spec (preremove inst patch).2 patch.filename
      by_cases hpre : (!(preremove inst patch).1) = true
      · rw [if_pos hpre]
        refine ⟨?_, fun hf => by cases hf⟩
        intro n hn
        show (preremove inst patch).2.patchFile n = none
        rw [hpf]; exact hn
      rw [if_neg hpre]
      by_cases hdel : (!(removePatchFile (preremove inst patch).2 patch.filename).1) = true
      · rw [if_pos hdel]
        refine ⟨?_, fun hf => by cases hf⟩
        intro n hn
        exact d3 n (by rw [hpf]; exact hn)
      rw [if_neg hdel]
      have hdel' : (removePatchFile (preremove inst patch).2 patch.filename).1 = true := by
        simpa using hdel
      obtain ⟨i1, i2⟩ := ih kept (removePatchFile (preremove inst patch).2 patch.filename).2
      refine ⟨?_, ?_⟩
      · intro n hn
        exact i1 n (d3 n (by rw [hpf]; exact hn))
      · intro hok
        obtain ⟨hl, hfiles⟩ := i2 hok
        refine ⟨?_, ?_⟩
        · rw [hl, List.filter_cons_of_neg (by simp [hm])]
        · intro p hp hpm
          rcases List.mem_cons.1 hp with rfl | hp
          · exact i1 _ (d2 hdel')
          · exact hfiles p hp hpm
    · rw [if_neg hm]
      obtain ⟨i1, i2⟩ := ih (kept ++ [patch]) inst
      refine ⟨i1, ?_⟩
      intro hok
      obtain ⟨hl, hfiles⟩ := i2 hok
      refine ⟨?_, ?_⟩
      · rw [hl, List.filter_cons_of_pos (by simpa using hm)]
        simp
      · intro p hp hpm
        rcases List.mem_cons.1 hp with rfl | hp
        · exact absurd hpm hm
        · exact hfiles p hp hpm

/-- The three ways through `revertToVanilla`: a failed removal, an exception of `reapply`,
success. -/
theorem revertToVanilla_cases (env : Collaborators) (w : World) :
    ((revertLoop env w.profile.VersionPatches [] w.inst).1 = false ∧
      revertToVanilla env w
        = ⟨saveCurrentOrder env
            ⟨{ w.profile with
                VersionPatches := (revertLoop env w.profile.VersionPatches [] w.inst).2.1 },
              (revertLoop env w.profile.VersionPatches [] w.inst).2.2⟩,
          some false, none⟩) ∨
    ((revertLoop env w.profile.VersionPatches [] w.inst).1 = true ∧
      ∃ e, (reapply env { w.profile with
          VersionPatches := (revertLoop env w.profile.VersionPatches [] w.inst).2.1 }).thrown
          = some e ∧
        (revertToVanilla env w).value = none) ∨
    ((revertLoop env w.profile.VersionPatches [] w.inst).1 = true ∧
      (reapply env { w.profile with
          VersionPatches := (revertLoop env w.profile.VersionPatches [] w.inst).2.1 }).thrown
          = none ∧
      revertToVanilla env w
        = ⟨saveCurrentOrder env
            ⟨(reapply env { w.profile with
                VersionPatches :=
                  (revertLoop env w.profile.VersionPatches [] w.inst).2.1 }).state,
              (revertLoop env w.profile.VersionPatches [] w.inst).2.2⟩,
          some true, none⟩) := by
  unfold revertToVanilla
  cases hl : (revertLoop env w.profile.VersionPatches [] w.inst).1 with
  | false => left; simp [hl]
  | true =>
    right
    cases hthr : (reapply env { w.profile with
        VersionPatches := (revertLoop env w.profile.VersionPatches [] w.inst).2.1 }).thrown with
    | some e => left; simp [hl, hthr]
    | none => right; simp [hl, hthr]

end MinecraftProfile

theorem MinecraftProfile.revertLoop_orderFileWritable (env : Collaborators)
    (l : List ProfilePatch) :
    ∀ (kept : List ProfilePatch) (inst : OneSixInstance),
      (MinecraftProfile.revertLoop env l kept inst).2.2.orderFileWritable
        = inst.orderFileWritable := by
  induction l with
  | nil => intro kept inst; rfl
  | cons patch rest ih =>
    intro kept inst
    have hpre : (MinecraftProfile.preremove inst patch).2.orderFileWritable
        = inst.orderFileWritable := by
      obtain ⟨⟨f, hf⟩, -⟩ := MinecraftProfile.preremove_spec inst patch
      rw [hf]
    have hdel := (removePatchFile_spec (MinecraftProfile.preremove inst patch).2
      patch.filename).2.2.2.2.2
    unfold MinecraftProfile.revertLoop
    split_ifs
    · exact hpre
    · exact hdel.trans hpre
    · exact (ih _ _).trans (hdel.trans hpre)
    · exact ih _ _

/-- When `revertToVanilla` returns false, the merged fields are those of before the call:
the profile has not been recomputed from the list that is left. The order file has been
rewritten from that list when it could be opened for writing. -/
theorem MinecraftProfile.revertToVanilla_failure_state (env : Collaborators) (w : World)
    (h : (MinecraftProfile.revertToVanilla env w).value = some false) :
    (MinecraftProfile.revertToVanilla env w).state.profile
      = { w.profile with VersionPatches :=
          (MinecraftProfile.revertToVanilla env w).state.profile.VersionPatches } ∧
    (w.inst.orderFileWritable = true →
      VersionBuilder.userOrder (MinecraftProfile.revertToVanilla env w).state.inst
        = MinecraftProfile.currentOrder env
            (MinecraftProfile.revertToVanilla env w).state.profile) := by
  rcases MinecraftProfile.revertToVanilla_cases env w with ⟨-, hr⟩ | ⟨-, e, -, hr⟩ | ⟨-, -, hr⟩
  · rw [hr]
    refine ⟨rfl, ?_⟩
    intro hw
    refine MinecraftProfile.userOrder_saveCurrentOrder env _ ?_
    show (MinecraftProfile.revertLoop env w.profile.VersionPatches [] w.inst).2.2.orderFileWritable
      = true
    rw [MinecraftProfile.revertLoop_orderFileWritable]
    exact hw
  · rw [hr] at h; cases h
  · rw [hr] at h; cases h

namespace MinecraftProfile

theorem swap_cons (a : ProfilePatch) (l : List ProfilePatch) (i j : Nat) :
    swap (a :: l) (i + 1) (j + 1) = a :: swap l i j := by
  unfold swap
  simp only [List.getElem?_cons_succ]
  cases l[i]? with
  | none => rfl
  | some x =>
    cases l[j]? with
    | none => rfl
    | some y => simp [List.set_cons_succ]

theorem mem_swap (l : List ProfilePatch) (i j : Nat) (x : ProfilePatch) :
    x ∈ swap l i j ↔ x ∈ l := by
  unfold swap
  cases hi : l[i]? with
  | none => rfl
  | some a =>
    cases hj : l[j]? with
    | none => rfl
    | some b =>
      simp only
      have hil : i < l.length := (List.getElem?_eq_some.1 hi).1
      have hjl : j < l.length := (List.getElem?_eq_some.1 hj).1
      constructor
      · intro hx
        obtain ⟨k, hk⟩ := List.mem_iff_getElem?.1 hx
        by_cases hkj : k = j
        · subst hkj
          rw [List.getElem?_set_self (by simpa using hjl)] at hk
          cases hk
          exact List.mem_iff_getElem?.2 ⟨i, hi⟩
        · rw [List.getElem?_set_ne (Ne.symm hkj)] at hk
          by_cases hki : k = i
          · subst hki
            rw [List.getElem?_set_self hil] at hk
            cases hk
            exact List.mem_iff_getElem?.2 ⟨j, hj⟩
          · rw [List.getElem?_set_ne (Ne.symm hki)] at hk
            exact List.mem_iff_getElem?.2 ⟨k, hk⟩
      · intro hx
        obtain ⟨k, hk⟩ := List.mem_iff_getElem?.1 hx
        by_cases hki : k = i
        · subst hki
          rw [hi] at hk
          cases hk
          exact List.mem_iff_getElem?.2 ⟨j, by
            rw [List.getElem?_set_self (by simpa using hjl)]⟩
        · by_cases hkj : k = j
          · subst hkj
            rw [hj] at hk
            cases hk
            by_cases hij : i = k
            · subst hij
              rw [hi] at hj
              cases hj
              exact List.mem_iff_getElem?.2 ⟨i, by
                rw [List.getElem?_set_self (by simpa using hil)]⟩
            · exact List.mem_iff_getElem?.2 ⟨i, by
                rw [List.getElem?_set_ne (Ne.symm hij), List.getElem?_set_self hil]⟩
          · exact List.mem_iff_getElem?.2 ⟨k, by
              rw [List.getElem?_set_ne (Ne.symm hkj), List.getElem?_set_ne (Ne.symm hki)]
              exact hk⟩

theorem currentOrder_of_builtins_first (env : Collaborators) (p : MinecraftProfile)
    (b0 b1 : ProfilePatch) (us : List ProfilePatch)
    (hl : p.VersionPatches = b0 :: b1 :: us)
    (h0 : env.isMoveable b0 = false) (h1 : env.isMoveable b1 = false)
    (hus : ∀ u ∈ us, env.isMoveable u = true) :
    currentOrder env p = us.map (fun u => u.fileId) := by
  unfold currentOrder
  rw [hl, List.filter_cons_of_neg (by simp [h0]), List.filter_cons_of_neg (by simp [h1]),
    List.filter_eq_self.2 hus]

end MinecraftProfile

namespace VersionBuilder

theorem loadByUserOrder_ok (env : Collaborators) (inst : OneSixInstance) (order : PatchOrder)
    (h : ∀ id ∈ order, ∃ f, parseById env inst id = .ok f ∧ f.fileId = id) :
    ∀ patches, (loadByUserOrder env inst order patches).thrown = none := by
  induction order with
  | nil => intro patches; rfl
  | cons id rest ih =>
    intro patches
    have ih' := ih (fun id' hid' => h id' (List.mem_cons_of_mem _ hid'))
    obtain ⟨f, hf, hfid⟩ := h id (List.mem_cons_self _ _)
    unfold loadByUserOrder
    split_ifs
    · exact ih' _
    · exact ih' _
    · exact ih' _
    · have hf' : parseJsonFile env (inst.patchFile (id ++ ".json")) (id ++ ".json") false false
          = .ok f := hf
      rw [hf']
      simp only [ne_eq, hfid, not_true_eq_false, if_false]
      exact ih' _

theorem scanPatches_skip_all (env : Collaborators) (inst : OneSixInstance) (uo : PatchOrder)
    (entries : List String)
    (h : ∀ info ∈ entries, ∃ f, parseEntry env inst info = .ok f ∧ ¬ Kept uo f) :
    ∀ files, scanPatches env inst uo entries files = .ok files := by
  induction entries with
  | nil => intro files; rfl
  | cons info rest ih =>
    intro files
    have ih' := ih (fun info' hinfo' => h info' (List.mem_cons_of_mem _ hinfo'))
    obtain ⟨f, hf, hk⟩ := h info (List.mem_cons_self _ _)
    have hf' : parseJsonFile env (inst.patchFile info) info true false = .ok f := hf
    unfold scanPatches
    rw [hf']
    simp only
    split_ifs with h1 h2 h3 h4
    · exact ih' _
    · exact ih' _
    · exact ih' _
    · exact absurd ⟨h1, h2, h3⟩ hk
    · exact absurd ⟨h1, h2, h3⟩ hk

theorem scanPatches_parses (env : Collaborators) (inst : OneSixInstance) (uo : PatchOrder)
    (entries : List String) :
    ∀ files m, scanPatches env inst uo entries files = .ok m →
      ∀ info ∈ entries, ∃ f, parseEntry env inst info = .ok f := by
  induction entries with
  | nil => intro files m _ info hinfo; cases hinfo
  | cons info rest ih =>
    intro files m h info' hinfo'
    unfold scanPatches at h
    cases hp : parseJsonFile env (inst.patchFile info) info true false with
    | error e => rw [hp] at h; cases h
    | ok file =>
      rw [hp] at h
      simp only at h
      rcases List.mem_cons.1 hinfo' with rfl | hmem
      · exact ⟨file, hp⟩
      · split_ifs at h
        · exact ih _ _ h info' hmem
        · exact ih _ _ h info' hmem
        · exact ih _ _ h info' hmem
        · exact ih _ _ h info' hmem

/-- A load of a directory whose order file lists exactly the user patches of a list, each of
them readable under its id, and whose scan finds nothing else, completes with the ids of
that list in its sequence. -/
theorem buildInternal_reproduces_saved_order (env : Collaborators) (inst : OneSixInstance)
    (profile : MinecraftProfile) (mc lwjgl : ProfilePatch) (us : List ProfilePatch)
    (hmc : env.findVersion inst.intendedVersionId = some mc)
    (hlw : parseJsonFile env env.lwjglResource ":/versions/LWJGL/2.9.1.json" false false
      = .ok lwjgl)
    (huo : userOrder inst = us.map (fun u => u.fileId))
    (hfiles : ∀ u ∈ us, u.fileId ≠ "net.minecraft" ∧ u.fileId ≠ "org.lwjgl" ∧
      (inst.patchFile (u.fileId ++ ".json")).isSome = true ∧
      ∃ f, parseById env inst u.fileId = .ok f ∧ f.fileId = u.fileId)
    (hscan : ∀ info ∈ inst.patchEntries, ∃ f, parseEntry env inst info = .ok f ∧
      ¬ Kept (us.map (fun u => u.fileId)) f) :
    (buildInternal env inst profile).thrown = none ∧
    (buildInternal env inst profile).state.VersionPatches.map (fun p => p.fileId)
      = mc.fileId :: lwjgl.fileId :: us.map (fun u => u.fileId) := by
  have hids : ∀ id ∈ us.map (fun u => u.fileId),
      ∃ f, parseById env inst id = .ok f ∧ f.fileId = id := by
    intro id hid
    obtain ⟨u, hu, rfl⟩ := List.mem_map.1 hid
    exact (hfiles u hu).2.2.2
  have hscan0 := scanPatches_skip_all env inst _ inst.patchEntries hscan []
  have hok : (buildInternal env inst profile).thrown = none := by
    refine (buildInternal_thrown_none_iff env inst profile).2 ⟨mc, lwjgl, [], hmc, hlw, ?_, ?_⟩
    · rw [huo]; exact loadByUserOrder_ok env inst _ hids _
    · rw [huo]; exact hscan0
  refine ⟨hok, ?_⟩
  obtain ⟨mc', lwjgl', ordered, files, h1, h2, h3, h4, -, h6⟩ := buildInternal_ok env inst profile hok
  rw [hmc] at h1
  rw [hlw] at h2
  cases h1
  cases h2
  rw [huo, hscan0] at h6
  cases h6
  have hpresent : presentIds inst (us.map (fun u => u.fileId)) = us.map (fun u => u.fileId) := by
    unfold presentIds
    apply List.filter_eq_self.2
    intro id hid
    obtain ⟨u, hu, rfl⟩ := List.mem_map.1 hid
    obtain ⟨q1, q2, q3, -⟩ := hfiles u hu
    simp [q1, q2, q3]
  rw [h3]
  simp only [List.map_cons, List.map_append, List.map_nil, List.append_nil, h4, huo, hpresent]
  rfl

end VersionBuilder

theorem MinecraftProfile.reload_patches_of_build_ok (env : Collaborators) (w : World)
    (h : (VersionBuilder.buildInternal env w.inst w.profile).thrown = none) :
    (MinecraftProfile.reload env w).state.profile.VersionPatches
      = (VersionBuilder.buildInternal env w.inst w.profile).state.VersionPatches := by
  unfold MinecraftProfile.reload VersionBuilder.build
  simp only [h]
  exact MinecraftProfile.reapply_patches env _

/-- The round trip of the persisted order, for a directory in which every patch file is named
after the id it declares and can be read under that id: after a load that completed with the
builtins as the only entries that are not moveable, a `move` that changed the list and wrote
the order file is reproduced by the next load, id by id. -/
theorem reload_after_move_reproduces_sequence (env : Collaborators) (w : World)
    (profile0 : MinecraftProfile) (index : Int) (direction : MinecraftProfile.MoveDirection)
    (hload : (VersionBuilder.buildInternal env w.inst profile0).thrown = none)
    (hlist : w.profile.VersionPatches
      = (VersionBuilder.buildInternal env w.inst profile0).state.VersionPatches)
    (hbuiltins : ∀ (i : Nat) (p : ProfilePatch), w.profile.VersionPatches[i]? = some p →
      (env.isMoveable p = false ↔ i < 2))
    (hwritable : w.inst.orderFileWritable = true)
    (hchanged : (MinecraftProfile.move env w index direction).state.profile.VersionPatches
      ≠ w.profile.VersionPatches)
    (hnames : ∀ info ∈ w.inst.patchEntries, ∀ f,
      VersionBuilder.parseEntry env w.inst info = .ok f →
        info = f.fileId ++ ".json" ∧
        ∃ f', VersionBuilder.parseById env w.inst f.fileId = .ok f' ∧ f'.fileId = f.fileId) :
    (VersionBuilder.buildInternal env (MinecraftProfile.move env w index direction).state.inst
      (MinecraftProfile.move env w index direction).state.profile).thrown = none ∧
    (MinecraftProfile.reload env
      (MinecraftProfile.move env w index direction).state).state.profile.VersionPatches.map
        (fun p => p.fileId)
      = (MinecraftProfile.move env w index direction).state.profile.VersionPatches.map
        (fun p => p.fileId) := by
  -- the list of the load
  obtain ⟨mc, lwjgl, ordered, files, hmc, hlw, hshape, hordered, hparse, hscan⟩ :=
    VersionBuilder.buildInternal_ok env w.inst profile0 hload
  rw [← hlist] at hshape
  have hspec := VersionBuilder.scanPatches_spec env w.inst _ _ [] files hscan List.Pairwise.nil
  have hfrom : ∀ x ∈ files, x.2.1 ∈ w.inst.patchEntries ∧
      VersionBuilder.parseEntry env w.inst x.2.1 = .ok x.2.2 ∧ x.1 = x.2.2.order ∧
      VersionBuilder.Kept (VersionBuilder.userOrder w.inst) x.2.2 := by
    intro x hx
    rcases hspec.2.2.1 x hx with hx' | hx'
    · cases hx'
    · exact hx'
  -- moveability
  have hm0 : env.isMoveable (mc.setOrder (-2)) = false :=
    (hbuiltins 0 _ (by rw [hshape]; simp)).2 (by decide)
  have hm1 : env.isMoveable ((lwjgl.setOrder (-1)).setVanilla true) = false :=
    (hbuiltins 1 _ (by rw [hshape]; simp)).2 (by decide)
  have hmus : ∀ u ∈ ordered ++ files.map (fun kv => kv.2.2), env.isMoveable u = true := by
    intro u hu
    obtain ⟨k, hk⟩ := List.mem_iff_getElem?.1 hu
    have hk' : w.profile.VersionPatches[k + 2]? = some u := by rw [hshape]; simpa using hk
    have := (hbuiltins (k + 2) u hk').1
    by_contra hcon
    have hfalse : env.isMoveable u = false := by simpa using hcon
    exact absurd (this hfalse) (by omega)
  -- the move
  rcases MinecraftProfile.move_state_patches env w index direction with hsame | hmoved
  · exact absurd hsame hchanged
  obtain ⟨src, dst, h0, hlen, hne, hsrc, hdst, hms, hmd, hswap, hinst⟩ := hmoved
  have hs := (MinecraftProfile.versionPatch_eq_some _ _ _ hsrc).2
  have hd := (MinecraftProfile.versionPatch_eq_some _ _ _ hdst).2
  have hi2 : ¬ (index.toNat < 2) := fun hlt => by
    have := (hbuiltins _ _ hs).2 hlt
    rw [hms] at this
    cases this
  have hj2 : ¬ ((MinecraftProfile.moveTarget w.profile index direction).toNat < 2) :=
    fun hlt => by
      have := (hbuiltins _ _ hd).2 hlt
      rw [hmd] at this
      cases this
  obtain ⟨i', hi'⟩ : ∃ i', index.toNat = i' + 1 + 1 := ⟨index.toNat - 2, by omega⟩
  obtain ⟨j', hj'⟩ : ∃ j', (MinecraftProfile.moveTarget w.profile index direction).toNat
      = j' + 1 + 1 :=
    ⟨(MinecraftProfile.moveTarget w.profile index direction).toNat - 2, by omega⟩
  rw [hi', hj', hshape, MinecraftProfile.swap_cons, MinecraftProfile.swap_cons] at hswap
  have hmem : ∀ u, u ∈ MinecraftProfile.swap (ordered ++ files.map (fun kv => kv.2.2)) i' j' ↔
      u ∈ ordered ++ files.map (fun kv => kv.2.2) := MinecraftProfile.mem_swap _ _ _
  -- the instance after the move
  obtain ⟨-, file, hframe⟩ := MinecraftProfile.saveCurrentOrder_frame env
    { w with profile := { w.profile with
        VersionPatches := (MinecraftProfile.move env w index direction).state.profile.VersionPatches } }
  rw [← hinst] at hframe
  have horder : VersionBuilder.userOrder (MinecraftProfile.move env w index direction).state.inst
      = (MinecraftProfile.swap (ordered ++ files.map (fun kv => kv.2.2)) i' j').map
          (fun u => u.fileId) := by
    have hsaved := MinecraftProfile.userOrder_saveCurrentOrder env
      ({ w with profile := { w.profile with VersionPatches :=
          (MinecraftProfile.move env w index direction).state.profile.VersionPatches } } : World)
      hwritable
    rw [hinst, hsaved]
    exact MinecraftProfile.currentOrder_of_builtins_first env _ _ _ _ hswap hm0 hm1
      (fun u hu => hmus u ((hmem u).1 hu))
  -- every user patch of the list can be read under its id
  have hread : ∀ u ∈ ordered ++ files.map (fun kv => kv.2.2),
      u.fileId ≠ "net.minecraft" ∧ u.fileId ≠ "org.lwjgl" ∧
      (w.inst.patchFile (u.fileId ++ ".json")).isSome = true ∧
      ∃ f, VersionBuilder.parseById env w.inst u.fileId = .ok f ∧ f.fileId = u.fileId := by
    intro u hu
    rcases List.mem_append.1 hu with ho | hsc
    · have hid : u.fileId ∈ VersionBuilder.presentIds w.inst (VersionBuilder.userOrder w.inst) := by
        rw [← hordered]
        exact List.mem_map_of_mem (fun p => p.fileId) ho
      simp only [VersionBuilder.presentIds, List.mem_filter, Bool.and_eq_true,
        decide_eq_true_eq] at hid
      exact ⟨hid.2.1.1, hid.2.1.2, hid.2.2, u, hparse u ho, rfl⟩
    · obtain ⟨x, hx, rfl⟩ := List.mem_map.1 hsc
      obtain ⟨q1, q2, -, k1, k2, -⟩ := hfrom x hx
      obtain ⟨hname, hby⟩ := hnames _ q1 _ q2
      refine ⟨k1, k2, ?_, hby⟩
      rw [← hname]
      have hq : VersionBuilder.parseJsonFile env (w.inst.patchFile x.2.1) x.2.1 true false
          = .ok x.2.2 := q2
      cases hfile : w.inst.patchFile x.2.1 with
      | none => rw [hfile] at hq; cases hq
      | some d => rfl
  -- the scan of the reload keeps nothing
  have hskip : ∀ info ∈ w.inst.patchEntries, ∃ f,
      VersionBuilder.parseEntry env w.inst info = .ok f ∧
      ¬ VersionBuilder.Kept
        ((MinecraftProfile.swap (ordered ++ files.map (fun kv => kv.2.2)) i' j').map
          (fun u => u.fileId)) f := by
    intro info hinfo
    obtain ⟨f, hf⟩ := VersionBuilder.scanPatches_parses env w.inst _ _ [] files hscan info hinfo
    refine ⟨f, hf, ?_⟩
    rintro ⟨k1, k2, k3⟩
    apply k3
    by_cases hlisted : f.fileId ∈ VersionBuilder.userOrder w.inst
    · obtain ⟨hname, -⟩ := hnames info hinfo f hf
      have hexists : (w.inst.patchFile (f.fileId ++ ".json")).isSome = true := by
        rw [← hname]
        have hq : VersionBuilder.parseJsonFile env (w.inst.patchFile info) info true false
            = .ok f := hf
        cases hfile : w.inst.patchFile info with
        | none => rw [hfile] at hq; cases hq
        | some d => rfl
      have hid : f.fileId ∈ VersionBuilder.presentIds w.inst (VersionBuilder.userOrder w.inst) := by
        simp [VersionBuilder.presentIds, hlisted, k1, k2, hexists]
      rw [← hordered] at hid
      obtain ⟨u, hu, hufid⟩ := List.mem_map.1 hid
      exact List.mem_map.2 ⟨u, (hmem u).2 (List.mem_append_left _ hu), hufid⟩
    · have hin := hspec.2.2.2 info hinfo f hf ⟨k1, k2, hlisted⟩
      have : f ∈ files.map (fun kv => kv.2.2) := List.mem_map.2 ⟨_, hin, rfl⟩
      exact List.mem_map.2 ⟨f, (hmem f).2 (List.mem_append_right _ this), rfl⟩
  -- the load after the move
  have hbuild := VersionBuilder.buildInternal_reproduces_saved_order env
    (MinecraftProfile.move env w index direction).state.inst
    (MinecraftProfile.move env w index direction).state.profile mc lwjgl
    (MinecraftProfile.swap (ordered ++ files.map (fun kv => kv.2.2)) i' j')
    (by rw [hframe]; exact hmc) hlw horder
    (by
      intro u hu
      rw [hframe]
      exact hread u ((hmem u).1 hu))
    (by
      rw [hframe]
      exact hskip)
  refine ⟨hbuild.1, ?_⟩
  rw [MinecraftProfile.reload_patches_of_build_ok env _ hbuild.1, hbuild.2, hswap]
  rfl

/-- The round trip on the loaded installation: after `move(2, down)` the reload yields the
ids in the sequence of the list after the move. -/
theorem reload_after_move_reproduces_sequence_on_sample :
    (MinecraftProfile.reload Sample.env
      (MinecraftProfile.move Sample.env Sample.world 2
        .MoveDown).state).state.profile.VersionPatches.map (fun p => p.fileId)
      = ["net.minecraft", "org.lwjgl", "b", "a"] := by
  have h := (reload_after_move_reproduces_sequence Sample.env Sample.world Sample.emptyProfile 2
    .MoveDown (by decide) (by decide)
    (by
      intro i p hp
      match i, hp with
      | 0, hp => cases hp; decide
      | 1, hp => cases hp; decide
      | 2, hp => cases hp; decide
      | 3, hp => cases hp; decide
      | (k + 4), hp => cases hp)
    (by decide) (by decide)
    (by
      intro info hinfo f hf
      have hcases : info = "a.json" ∨ info = "b.json" := by
        simpa [Sample.world, Sample.instanceOf] using hinfo
      rcases hcases with rfl | rfl
      · have q : VersionBuilder.parseEntry Sample.env Sample.world.inst "a.json"
            = .ok (Sample.parsed "a.json" "a" 1) := rfl
        rw [q] at hf
        cases hf
        exact ⟨by decide, Sample.parsed "a.json" "a" 1, rfl, rfl⟩
      · have q : VersionBuilder.parseEntry Sample.env Sample.world.inst "b.json"
            = .ok (Sample.parsed "b.json" "b" 2) := rfl
        rw [q] at hf
        cases hf
        exact ⟨by decide, Sample.parsed "b.json" "b" 2, rfl, rfl⟩)).2
  rw [h]
  decide

namespace MinecraftProfile

/-- The list `getActiveNormalLibs` returns is the library list filtered by "active and not
native": no library is left out for its raw name. -/
theorem getActiveNormalLibs_eq_filter (p : MinecraftProfile) :
    (getActiveNormalLibs p).1 = p.libraries.filter (fun lib => lib.isActive && !lib.isNative) := by
  have h : ∀ (l : List OneSixLibrary) (state : List OneSixLibrary × List String),
      (l.foldl
        (fun (state : List OneSixLibrary × List String) lib =>
          if lib.isActive && !lib.isNative then
            (state.1 ++ [lib], warnSameName lib state.1 state.2)
          else state) state).1
        = state.1 ++ l.filter (fun lib => lib.isActive && !lib.isNative) := by
    intro l
    induction l with
    | nil => intro state; simp
    | cons lib l ih =>
      intro state
      rw [List.foldl_cons, ih]
      by_cases hc : (lib.isActive && !lib.isNative) = true
      · rw [if_pos hc]
        simp [List.filter_cons, hc]
      · rw [if_neg hc]
        simp [List.filter_cons, hc]
  have h0 := h p.libraries ([], [])
  simpa [getActiveNormalLibs] using h0

end MinecraftProfile

namespace SolderVersion

/-- An id that does not start with `v` is left alone. -/
theorem removeLeadingV_of_not_startsWith (objects : SolderVersions) (address : Nat)
    (h : QString.startsWith (objects address).id 'v' = false) :
    removeLeadingV objects address = objects := by
  unfold removeLeadingV
  rw [h]
  rfl

/-- The objects after `operator<` on two `SolderVersion` objects. -/
theorem operatorLess_objects (less : String → String → Bool) (objects : SolderVersions)
    (self pa : Nat) :
    (operatorLess less objects self (.solder pa)).2
      = removeLeadingV (removeLeadingV objects self) pa := rfl

/-- The objects after `operator>` on two `SolderVersion` objects. -/
theorem operatorGreater_objects (greater : String → String → Bool) (objects : SolderVersions)
    (self pa : Nat) :
    (operatorGreater greater objects self (.solder pa)).2
      = removeLeadingV (removeLeadingV objects self) pa := rfl

/-- When neither id starts with `v`, the two comparisons change no object. -/
theorem comparison_keeps_ids_without_leading_v (less greater : String → String → Bool)
    (objects : SolderVersions) (self pa : Nat)
    (hself : QString.startsWith (objects self).id 'v' = false)
    (hpa : QString.startsWith (objects pa).id 'v' = false) :
    (operatorLess less objects self (.solder pa)).2 = objects ∧
    (operatorGreater greater objects self (.solder pa)).2 = objects := by
  rw [operatorLess_objects, operatorGreater_objects,
    removeLeadingV_of_not_startsWith objects self hself,
    removeLeadingV_of_not_startsWith objects pa hpa]
  exact ⟨rfl, rfl⟩

/-- The object at `address` after the statement: its id without the leading `v`, the other
members as before. -/
theorem removeLeadingV_at (objects : SolderVersions) (address : Nat) :
    removeLeadingV objects address address
      = { objects address with
          id := if QString.startsWith (objects address).id 'v' then
              QString.remove (objects address).id 0 1
            else (objects address).id } := by
  unfold removeLeadingV
  by_cases h : QString.startsWith (objects address).id 'v' = true
  · rw [if_pos h, if_pos h]
    simp
  · rw [if_neg h, if_neg h]

/-- The statement on one object leaves every other object alone. -/
theorem removeLeadingV_of_ne (objects : SolderVersions) (address k : Nat) (h : k ≠ address) :
    removeLeadingV objects address k = objects k := by
  unfold removeLeadingV
  by_cases hv : QString.startsWith (objects address).id 'v' = true
  · rw [if_pos hv]
    simp [h]
  · rw [if_neg hv]

/-- On two distinct objects `operator>` returns what the lambda `versionCompare` of
`loadSolderPackInfo` returns on their ids; the lambda works on copies of the strings. -/
theorem operatorGreater_value (greater : String → String → Bool) (objects : SolderVersions)
    (self pa : Nat) (h : self ≠ pa) :
    (operatorGreater greater objects self (.solder pa)).1
      = versionCompare greater (objects self).id (objects pa).id := by
  show greater (removeLeadingV (removeLeadingV objects self) pa self).id
      (removeLeadingV (removeLeadingV objects self) pa pa).id = _
  rw [removeLeadingV_of_ne _ pa self h, removeLeadingV_at objects self,
    removeLeadingV_at (removeLeadingV objects self) pa,
    removeLeadingV_of_ne objects self pa (Ne.symm h)]
  rfl

end SolderVersion

/-! ## The patch list controller: claims -/

/-- C10. `move(index, direction)` returns with the patch list, the merged fields and the
directory of the instance (the persisted order included) unchanged whenever the index is out
of range, the computed destination equals the index, or the entry at the index or at the
computed destination is not moveable. Hence an entry that is not moveable is at the same
position after every `move`. -/
theorem move_leaves_unmoveable_in_place (env : Collaborators) (w : World) (index : Int)
    (direction : MinecraftProfile.MoveDirection) :
    ((index < 0 ∨ index ≥ w.profile.VersionPatches.length ∨
        MinecraftProfile.moveTarget w.profile index direction = index ∨
        (∃ p, MinecraftProfile.versionPatch w.profile index = some p ∧
          env.isMoveable p = false) ∨
        (∃ p, MinecraftProfile.versionPatch w.profile
            (MinecraftProfile.moveTarget w.profile index direction) = some p ∧
          env.isMoveable p = false)) →
      MinecraftProfile.move env w index direction = ⟨w, none⟩) ∧
    (∀ (i : Nat) (p : ProfilePatch), w.profile.VersionPatches[i]? = some p →
      env.isMoveable p = false →
      (MinecraftProfile.move env w index direction).state.profile.VersionPatches[i]?
        = some p) := by
  constructor
  · intro h
    unfold MinecraftProfile.move
    by_cases hrange : index < 0 ∨ index ≥ w.profile.VersionPatches.length
    · rw [if_pos hrange]
    rw [if_neg hrange]
    simp only
    by_cases heq : index = MinecraftProfile.moveTarget w.profile index direction
    · rw [if_pos heq]
    rw [if_neg heq]
    rcases h with h | h | h | ⟨p, hp, hm⟩ | ⟨p, hp, hm⟩
    · exact absurd (Or.inl h) hrange
    · exact absurd (Or.inr h) hrange
    · exact absurd h.symm heq
    · rw [hp]
      cases MinecraftProfile.versionPatch w.profile
          (MinecraftProfile.moveTarget w.profile index direction) with
      | none => rfl
      | some dst => simp [hm]
    · rw [hp]
      cases MinecraftProfile.versionPatch w.profile index with
      | none => rfl
      | some src => simp [hm]
  · intro i p hi hm
    unfold MinecraftProfile.move
    by_cases hrange : index < 0 ∨ index ≥ w.profile.VersionPatches.length
    · rw [if_pos hrange]; exact hi
    rw [if_neg hrange]
    simp only
    by_cases heq : index = MinecraftProfile.moveTarget w.profile index direction
    · rw [if_pos heq]; exact hi
    rw [if_neg heq]
    cases hsrc : MinecraftProfile.versionPatch w.profile index with
    | none => exact hi
    | some src =>
      cases hdst : MinecraftProfile.versionPatch w.profile
          (MinecraftProfile.moveTarget w.profile index direction) with
      | none => exact hi
      | some dst =>
        simp only
        by_cases hmv : (!env.isMoveable dst || !env.isMoveable src) = true
        · rw [if_pos hmv]; exact hi
        rw [if_neg hmv]
        simp only [Bool.or_eq_true, Bool.not_eq_true', not_or, Bool.not_eq_false] at hmv
        have hs := MinecraftProfile.versionPatch_eq_some _ _ _ hsrc
        have hd := MinecraftProfile.versionPatch_eq_some _ _ _ hdst
        have hne1 : i ≠ index.toNat := by
          intro e
          rw [e, hs.2] at hi
          rw [Option.some.inj hi] at hmv
          rw [hmv.2] at hm
          cases hm
        have hne2 : i ≠ (MinecraftProfile.moveTarget w.profile index direction).toNat := by
          intro e
          rw [e, hd.2] at hi
          rw [Option.some.inj hi] at hmv
          rw [hmv.1] at hm
          cases hm
        rw [MinecraftProfile.reapply_patches]
        simp only [MinecraftProfile.saveCurrentOrder]
        rw [MinecraftProfile.swap_getElem?_of_ne _ _ _ _ hne1 hne2]
        exact hi

/-- C10 on a loaded list: moving the library bundle up is refused, and it stays at index 1
when the patch behind it moves. -/
theorem move_leaves_unmoveable_in_place_witness :
    MinecraftProfile.move Sample.env Sample.world 1 .MoveUp = ⟨Sample.world, none⟩ ∧
    (MinecraftProfile.move Sample.env Sample.world 2 .MoveDown).state.profile.VersionPatches[1]?
      = some ((Sample.lwjgl.setOrder (-1)).setVanilla true) :=
  ⟨(move_leaves_unmoveable_in_place Sample.env Sample.world 1 .MoveUp).1
      (Or.inr (Or.inr (Or.inr (Or.inr ⟨Sample.minecraft.setOrder (-2), rfl, rfl⟩)))),
    (move_leaves_unmoveable_in_place Sample.env Sample.world 2 .MoveDown).2 1 _ rfl rfl⟩

/-- C11, counterexample. In a list of three moveable patches `a`, `b`, `c`, `move(0, up)`
exchanges the first entry with the last one, which is not its neighbour, and rewrites the
order file: the list and the persisted order are not left unchanged. -/
theorem move_up_at_index_zero_wraps_around :
    (MinecraftProfile.move Sample.env Sample.userWorld 0 .MoveUp).state.profile.VersionPatches
      = [Sample.parsed "c.json" "c" 3, Sample.parsed "b.json" "b" 2,
          Sample.parsed "a.json" "a" 1] ∧
    (MinecraftProfile.move Sample.env Sample.userWorld 0 .MoveUp).state.profile.VersionPatches
      ≠ Sample.userWorld.profile.VersionPatches ∧
    VersionBuilder.userOrder Sample.userWorld.inst = ["a", "b", "c"] ∧
    VersionBuilder.userOrder
      (MinecraftProfile.move Sample.env Sample.userWorld 0 .MoveUp).state.inst
      = ["c", "b", "a"] := by
  refine ⟨by decide, by decide, by decide, by decide⟩

/-- C11, as the code has it. `move(index, direction)` either leaves the patch list unchanged
or exchanges the entry at `index` with the entry at the destination it computes and leaves
every other position unchanged. The destination is `index + 1` for down and `index - 1` for
up, except for index 0 and up, where the code wraps around to the last index. `move(0, up)`
leaves the list and the instance directory, the order file included, unchanged when the list
has at most one entry or its first or its last entry is not moveable. -/
theorem move_exchanges_with_destination (env : Collaborators) (w : World) (index : Int)
    (direction : MinecraftProfile.MoveDirection) :
    ((MinecraftProfile.move env w index direction).state.profile.VersionPatches
        = w.profile.VersionPatches ∨
      ∃ (i j : Nat) (a b : ProfilePatch),
        index = (i : Int) ∧ i ≠ j ∧
        w.profile.VersionPatches[i]? = some a ∧ w.profile.VersionPatches[j]? = some b ∧
        (MinecraftProfile.move env w index direction).state.profile.VersionPatches[i]?
          = some b ∧
        (MinecraftProfile.move env w index direction).state.profile.VersionPatches[j]?
          = some a ∧
        (∀ k : Nat, k ≠ i → k ≠ j →
          (MinecraftProfile.move env w index direction).state.profile.VersionPatches[k]?
            = w.profile.VersionPatches[k]?) ∧
        (MinecraftProfile.move env w index direction).state.profile.VersionPatches.length
          = w.profile.VersionPatches.length ∧
        ((direction = .MoveDown ∧ j = i + 1) ∨
          (direction = .MoveUp ∧ 0 < i ∧ j + 1 = i) ∨
          (direction = .MoveUp ∧ i = 0 ∧ j + 1 = w.profile.VersionPatches.length))) ∧
    ((w.profile.VersionPatches.length ≤ 1 ∨
        (∃ p, w.profile.VersionPatches[0]? = some p ∧ env.isMoveable p = false) ∨
        (∃ p, w.profile.VersionPatches[w.profile.VersionPatches.length - 1]? = some p ∧
          env.isMoveable p = false)) →
      MinecraftProfile.move env w 0 .MoveUp = ⟨w, none⟩) := by
  constructor
  · rcases MinecraftProfile.move_state_patches env w index direction with h | h
    · exact Or.inl h
    · obtain ⟨src, dst, h0, hlen, hne, hsrc, hdst, -, -, hswap, -⟩ := h
      have hs := (MinecraftProfile.versionPatch_eq_some _ _ _ hsrc).2
      have hd := MinecraftProfile.versionPatch_eq_some _ _ _ hdst
      have hcases := MinecraftProfile.moveTarget_cases w.profile index direction h0 hlen hne
      have hi : index.toNat < w.profile.VersionPatches.length := by omega
      have hj : (MinecraftProfile.moveTarget w.profile index direction).toNat
          < w.profile.VersionPatches.length := by
        have := (List.getElem?_eq_some.1 hd.2).1
        exact this
      have hij : index.toNat ≠ (MinecraftProfile.moveTarget w.profile index direction).toNat := by
        have := hd.1
        omega
      rw [MinecraftProfile.swap_eq_of_getElem? _ _ _ src dst hs hd.2] at hswap
      refine Or.inr ⟨index.toNat, (MinecraftProfile.moveTarget w.profile index direction).toNat,
        src, dst, by omega, hij, hs, hd.2, ?_, ?_, ?_, ?_, ?_⟩
      · rw [hswap, List.getElem?_set_ne (Ne.symm hij), List.getElem?_set_self hi]
      · rw [hswap, List.getElem?_set_self (by simpa using hj)]
      · intro k hk1 hk2
        rw [hswap, List.getElem?_set_ne (Ne.symm hk2), List.getElem?_set_ne (Ne.symm hk1)]
      · rw [hswap]; simp
      · rcases hcases with ⟨hdir, ht, -⟩ | ⟨hdir, hpos, ht⟩ | ⟨hdir, hz, ht⟩
        · exact Or.inl ⟨hdir, by omega⟩
        · exact Or.inr (Or.inl ⟨hdir, by omega, by omega⟩)
        · exact Or.inr (Or.inr ⟨hdir, by omega, by omega⟩)
  · intro h
    rcases MinecraftProfile.move_state_patches env w 0 .MoveUp with hsame | hmoved
    · -- the list is unchanged: the call returned before the swap
      unfold MinecraftProfile.move at hsame ⊢
      by_cases hrange : (0 : Int) < 0 ∨ (0 : Int) ≥ w.profile.VersionPatches.length
      · rw [if_pos hrange]
      rw [if_neg hrange] at hsame ⊢
      simp only at hsame ⊢
      by_cases heq : (0 : Int) = MinecraftProfile.moveTarget w.profile 0 .MoveUp
      · rw [if_pos heq]
      rw [if_neg heq] at hsame ⊢
      have h0 : (0 : Int) ≤ 0 := le_refl _
      have hlen : (0 : Int) < w.profile.VersionPatches.length := by omega
      rcases MinecraftProfile.moveTarget_cases w.profile 0 .MoveUp h0 hlen heq with
        ⟨hd, -⟩ | ⟨-, hpos, -⟩ | ⟨-, -, ht⟩
      · cases hd
      · exact absurd hpos (lt_irrefl _)
      · have hlen2 : 1 < w.profile.VersionPatches.length := by
          by_contra hcon
          apply heq
          rw [ht]
          omega
        have hfirst : MinecraftProfile.versionPatch w.profile 0
            = w.profile.VersionPatches[0]? := by
          simp [MinecraftProfile.versionPatch, hrange]
        have hlast : MinecraftProfile.versionPatch w.profile
            (MinecraftProfile.moveTarget w.profile 0 .MoveUp)
            = w.profile.VersionPatches[w.profile.VersionPatches.length - 1]? := by
          rw [ht]
          have hr : ¬ ((w.profile.VersionPatches.length : Int) - 1 < 0 ∨
              (w.profile.VersionPatches.length : Int) - 1 ≥ w.profile.VersionPatches.length) := by
            omega
          simp only [MinecraftProfile.versionPatch, hr, if_false]
          congr 1
          omega
        rcases h with h | ⟨p, hp, hm⟩ | ⟨p, hp, hm⟩
        · omega
        · rw [hfirst, hp]
          cases MinecraftProfile.versionPatch w.profile
              (MinecraftProfile.moveTarget w.profile 0 .MoveUp) with
          | none => rfl
          | some dst => simp [hm]
        · rw [hlast, hp]
          cases MinecraftProfile.versionPatch w.profile 0 with
          | none => rfl
          | some src => simp [hm]
    · obtain ⟨src, dst, h0, hlen, hne, hsrc, hdst, hm1, hm2, -, -⟩ := hmoved
      exfalso
      have hrange : ¬ ((0 : Int) < 0 ∨ (0 : Int) ≥ w.profile.VersionPatches.length) := by omega
      rcases MinecraftProfile.moveTarget_cases w.profile 0 .MoveUp h0 hlen hne with
        ⟨hd, -⟩ | ⟨-, hpos, -⟩ | ⟨-, -, ht⟩
      · cases hd
      · exact absurd hpos (lt_irrefl _)
      · have hs := (MinecraftProfile.versionPatch_eq_some _ _ _ hsrc).2
        have hd := (MinecraftProfile.versionPatch_eq_some _ _ _ hdst).2
        have hidx : (MinecraftProfile.moveTarget w.profile 0 .MoveUp).toNat
            = w.profile.VersionPatches.length - 1 := by rw [ht]; omega
        rw [hidx] at hd
        rcases h with h | ⟨p, hp, hm⟩ | ⟨p, hp, hm⟩
        · apply hne; rw [ht]; omega
        · simp only [Int.toNat_zero] at hs
          rw [hs] at hp
          rw [Option.some.inj hp, hm] at hm1
          cases hm1
        · rw [hd] at hp
          rw [Option.some.inj hp, hm] at hm2
          cases hm2

/-- C11 as amended, on a loaded list: `move(0, up)` on the engine-version builtin is
refused. -/
theorem move_exchanges_with_destination_witness :
    MinecraftProfile.move Sample.env Sample.world 0 .MoveUp = ⟨Sample.world, none⟩ :=
  (move_exchanges_with_destination Sample.env Sample.world 0 .MoveUp).2
    (Or.inr (Or.inl ⟨Sample.minecraft.setOrder (-2), rfl, rfl⟩))

/-- C12, the code at the failing input. The patches directory holds `b.json`, which declares
the id `x`, and `c.json`, which declares the id `c`; there is no order file. The load
completes with the list `net.minecraft`, `org.lwjgl`, `x`, `c`, whose builtins are the only
entries that are not moveable. `move(2, down)` exchanges `x` and `c` and writes the order
`c`, `x`. The reload that follows completes with the list `net.minecraft`, `org.lwjgl`, `c`:
the patch `x` is gone, the sequence of the list after the move is not reproduced. -/
theorem reload_after_move_loses_renamed_patch :
    (MinecraftProfile.reload Sample.env ⟨Sample.emptyProfile, Sample.renamedFile⟩).thrown
      = none ∧
    Sample.renamedWorld.profile.VersionPatches.map (fun p => (p.fileId, Sample.env.isMoveable p))
      = [("net.minecraft", false), ("org.lwjgl", false), ("x", true), ("c", true)] ∧
    (MinecraftProfile.move Sample.env Sample.renamedWorld 2 .MoveDown).thrown = none ∧
    (MinecraftProfile.move Sample.env Sample.renamedWorld 2
      .MoveDown).state.profile.VersionPatches.map (fun p => p.fileId)
      = ["net.minecraft", "org.lwjgl", "c", "x"] ∧
    VersionBuilder.userOrder
      (MinecraftProfile.move Sample.env Sample.renamedWorld 2 .MoveDown).state.inst
      = ["c", "x"] ∧
    (MinecraftProfile.reload Sample.env
      (MinecraftProfile.move Sample.env Sample.renamedWorld 2 .MoveDown).state).thrown
      = none ∧
    (MinecraftProfile.reload Sample.env
      (MinecraftProfile.move Sample.env Sample.renamedWorld 2
        .MoveDown).state).state.profile.VersionPatches.map (fun p => p.fileId)
      = ["net.minecraft", "org.lwjgl", "c"] := by
  refine ⟨by decide, by decide, by decide, by decide, by decide, by decide, by decide⟩

/-- C13, counterexample. The patch at index 4 is the jar-mod patch `installJarMods` wrote; its
jar-mod file `u.jar` exists and the patches directory is read-only. `remove(4)` returns
false, and `u.jar` has been deleted. -/
theorem failed_remove_has_deleted_jar_mod :
    (Sample.lockedWorld.profile.VersionPatches.map (fun p => (p.fileId, p.jarMods)))
      = [("net.minecraft", []), ("org.lwjgl", []), ("a", []), ("b", []),
          ("org.multimc.jarmod.u", ["u.jar"])] ∧
    Sample.lockedWorld.inst.jarModExists "u.jar" = true ∧
    (MinecraftProfile.remove Sample.env Sample.lockedWorld 4).value = some false ∧
    (MinecraftProfile.remove Sample.env Sample.lockedWorld 4).state.inst.jarModExists "u.jar"
      = false := by
  refine ⟨by decide, by decide, by decide, by decide⟩

/-- C13, as the code has it. When `remove(index)` returns false for an index in range, the
patch list and the merged fields, the order file and the files of the patches directory are
unchanged, and no jar-mod file has appeared. Jar-mod files of other patches are untouched; a
refusal for an entry that is not moveable changes nothing at all. Jar-mod files of the patch
itself may have been deleted. -/
theorem failed_remove_keeps_list_and_patch_file (env : Collaborators) (w : World)
    (index : Int) (_hrange : 0 ≤ index ∧ index < w.profile.VersionPatches.length)
    (h : (MinecraftProfile.remove env w index).value = some false) :
    (MinecraftProfile.remove env w index).state.profile = w.profile ∧
    (MinecraftProfile.remove env w index).state.inst.orderFile = w.inst.orderFile ∧
    (MinecraftProfile.remove env w index).state.inst.patchFile = w.inst.patchFile ∧
    (MinecraftProfile.remove env w index).state.inst.patchEntries = w.inst.patchEntries ∧
    (∀ n, (MinecraftProfile.remove env w index).state.inst.jarModExists n = true →
      w.inst.jarModExists n = true) ∧
    (∀ patch, MinecraftProfile.versionPatch w.profile index = some patch →
      (∀ n, n ∉ patch.jarMods →
        (MinecraftProfile.remove env w index).state.inst.jarModExists n
          = w.inst.jarModExists n) ∧
      (env.isMoveable patch = false → (MinecraftProfile.remove env w index).state = w)) := by
  rcases MinecraftProfile.remove_cases env w index with ⟨hr, hnm⟩ | ⟨patch, hp, hm, hr⟩
  · rw [hr]
    exact ⟨rfl, rfl, rfl, rfl, fun _ hn => hn, fun _ _ => ⟨fun _ _ => rfl, fun _ => rfl⟩⟩
  · obtain ⟨⟨f, p1⟩, p2, p3, -⟩ := MinecraftProfile.preremove_spec w.inst patch
    have hstate : (MinecraftProfile.remove env w index).state
        = { w with inst := (MinecraftProfile.preremove w.inst patch).2 } := by
      rcases hr with ⟨-, hr⟩ | ⟨-, -, hr⟩ | ⟨-, -, e, -, hr⟩ | ⟨-, -, -, hr⟩
      · rw [hr]
      · rw [hr]
      · rw [hr] at h; cases h
      · rw [hr] at h; cases h
    rw [hstate, p1]
    refine ⟨rfl, rfl, rfl, rfl, ?_, ?_⟩
    · intro n hn
      have := p3 n
      rw [p1] at this
      exact this hn
    · intro patch' hp'
      rw [hp] at hp'
      cases hp'
      refine ⟨?_, fun hm' => by rw [hm] at hm'; cases hm'⟩
      intro n hn
      have := p2 n hn
      rw [p1] at this
      exact this

/-- C13 as amended, on the same failed removal: the list and the merged fields are as
before. -/
theorem failed_remove_keeps_list_and_patch_file_witness :
    (MinecraftProfile.remove Sample.env Sample.lockedWorld 4).value = some false ∧
    (MinecraftProfile.remove Sample.env Sample.lockedWorld 4).state.profile
      = Sample.lockedWorld.profile :=
  ⟨by decide,
    (failed_remove_keeps_list_and_patch_file Sample.env Sample.lockedWorld 4
      (by decide) (by decide)).1⟩

/-- C14, counterexample. The order file lists `a` and `b` and cannot be opened for writing.
`remove(2)` removes the patch `a` and returns true, and the persisted order still lists
`a`. -/
theorem successful_remove_leaves_id_in_order_file :
    (Sample.readOnlyOrderWorld.profile.VersionPatches[2]?).map (fun p => p.fileId)
      = some "a" ∧
    (MinecraftProfile.remove Sample.env Sample.readOnlyOrderWorld 2).value = some true ∧
    (MinecraftProfile.remove Sample.env Sample.readOnlyOrderWorld
      2).state.profile.VersionPatches.map (fun p => p.fileId)
      = ["net.minecraft", "org.lwjgl", "b"] ∧
    "a" ∈ VersionBuilder.userOrder
      (MinecraftProfile.remove Sample.env Sample.readOnlyOrderWorld 2).state.inst := by
  refine ⟨by decide, by decide, by decide, by decide⟩

/-- C14, as the code has it. When `remove(index)` returns true, the entry at the index was
moveable and has been taken out of the list, every other entry keeping its place in the
sequence; its patch file and its jar-mod files no longer exist. When no other entry carries
its id, the id is absent from the list, and it is absent from the persisted order as well
when the order file could be written. -/
theorem successful_remove_erases_entry_and_files (env : Collaborators) (w : World)
    (index : Int) (h : (MinecraftProfile.remove env w index).value = some true) :
    ∃ patch : ProfilePatch,
      MinecraftProfile.versionPatch w.profile index = some patch ∧
      env.isMoveable patch = true ∧
      (MinecraftProfile.remove env w index).state.profile.VersionPatches
        = w.profile.VersionPatches.eraseIdx index.toNat ∧
      (MinecraftProfile.remove env w index).state.inst.patchFile patch.filename = none ∧
      (∀ n ∈ patch.jarMods,
        (MinecraftProfile.remove env w index).state.inst.jarModExists n = false) ∧
      ((∀ other ∈ w.profile.VersionPatches.eraseIdx index.toNat,
          other.fileId ≠ patch.fileId) →
        (∀ other ∈ (MinecraftProfile.remove env w index).state.profile.VersionPatches,
          other.fileId ≠ patch.fileId) ∧
        (w.inst.orderFileWritable = true →
          patch.fileId ∉
            VersionBuilder.userOrder (MinecraftProfile.remove env w index).state.inst)) := by
  rcases MinecraftProfile.remove_cases env w index with ⟨hr, -⟩ | ⟨patch, hp, hm, hr⟩
  · rw [hr] at h; cases h
  · rcases hr with ⟨-, hr⟩ | ⟨-, -, hr⟩ | ⟨-, -, e, -, hr⟩ | ⟨hpre, hdel, hthr, hr⟩
    · rw [hr] at h; cases h
    · rw [hr] at h; cases h
    · rw [hr] at h; cases h
    · obtain ⟨⟨f, p1⟩, -, -, p4⟩ := MinecraftProfile.preremove_spec w.inst patch
      obtain ⟨-, d2, -, d4, -, d6⟩ :=
        removePatchFile_spec (MinecraftProfile.preremove w.inst patch).2 patch.filename
      have hlist := MinecraftProfile.reapply_patches env
        { w.profile with VersionPatches := w.profile.VersionPatches.eraseIdx index.toNat }
      obtain ⟨sp, file, si⟩ := MinecraftProfile.saveCurrentOrder_frame env
        ⟨(MinecraftProfile.reapply env
          { w.profile with
            VersionPatches := w.profile.VersionPatches.eraseIdx index.toNat }).state,
          (removePatchFile (MinecraftProfile.preremove w.inst patch).2 patch.filename).2⟩
      have hwritable : w.inst.orderFileWritable = true →
          (removePatchFile (MinecraftProfile.preremove w.inst patch).2
            patch.filename).2.orderFileWritable = true := by
        intro hw
        rw [d6, p1]
        exact hw
      rw [hr]
      refine ⟨patch, hp, hm, ?_, ?_, ?_, ?_⟩
      · show (MinecraftProfile.saveCurrentOrder env _).profile.VersionPatches = _
        rw [sp]; exact hlist
      · show (MinecraftProfile.saveCurrentOrder env _).inst.patchFile patch.filename = none
        rw [si]; exact d2 hdel
      · intro n hn
        show (MinecraftProfile.saveCurrentOrder env _).inst.jarModExists n = false
        rw [si]
        show (removePatchFile (MinecraftProfile.preremove w.inst patch).2
          patch.filename).2.jarModExists n = false
        rw [d4]
        exact p4 hpre n hn
      · intro hother
        refine ⟨?_, ?_⟩
        · intro other ho
          have ho' : other ∈ (MinecraftProfile.saveCurrentOrder env _).profile.VersionPatches :=
            ho
          rw [sp] at ho'
          simp only at ho'
          rw [hlist] at ho'
          exact hother other ho'
        · intro hw
          show patch.fileId ∉ VersionBuilder.userOrder (MinecraftProfile.saveCurrentOrder env _).inst
          rw [MinecraftProfile.userOrder_saveCurrentOrder env _ (hwritable hw)]
          simp only [MinecraftProfile.currentOrder, hlist, List.mem_map, List.mem_filter,
            not_exists, not_and]
          intro other ho
          exact hother other ho.1

/-- C14 as amended, on the removal of the jar-mod patch: the entry is gone from the list. -/
theorem successful_remove_erases_entry_and_files_witness :
    (MinecraftProfile.remove Sample.env Sample.installed 4).value = some true ∧
    ∃ patch : ProfilePatch,
      MinecraftProfile.versionPatch Sample.installed.profile 4 = some patch ∧
      (MinecraftProfile.remove Sample.env Sample.installed 4).state.profile.VersionPatches
        = Sample.installed.profile.VersionPatches.eraseIdx (4 : Int).toNat ∧
      (MinecraftProfile.remove Sample.env Sample.installed 4).state.inst.patchFile
        patch.filename = none ∧
      (∀ n ∈ patch.jarMods,
        (MinecraftProfile.remove Sample.env Sample.installed 4).state.inst.jarModExists n
          = false) :=
  ⟨by decide,
    (successful_remove_erases_entry_and_files Sample.env Sample.installed 4 (by decide)).imp
      (fun _ hp => ⟨hp.1, hp.2.2.1, hp.2.2.2.1, hp.2.2.2.2.1⟩)⟩

/-- C15. When `revertToVanilla` returns true, the patch list consists of the entries of the
original list that are not moveable, in their original sequence, and the patch file of every
entry that was moveable no longer exists. -/
theorem revert_to_vanilla_keeps_unmoveable_only (env : Collaborators) (w : World)
    (h : (MinecraftProfile.revertToVanilla env w).value = some true) :
    (MinecraftProfile.revertToVanilla env w).state.profile.VersionPatches
      = w.profile.VersionPatches.filter (fun p => !env.isMoveable p) ∧
    ∀ p ∈ w.profile.VersionPatches, env.isMoveable p = true →
      (MinecraftProfile.revertToVanilla env w).state.inst.patchFile p.filename = none := by
  rcases MinecraftProfile.revertToVanilla_cases env w with ⟨-, hr⟩ | ⟨-, e, -, hr⟩ | ⟨hl, -, hr⟩
  · rw [hr] at h; cases h
  · rw [hr] at h; cases h
  · obtain ⟨-, hspec⟩ := MinecraftProfile.revertLoop_spec env w.profile.VersionPatches [] w.inst
    obtain ⟨hlist, hfiles⟩ := hspec hl
    obtain ⟨sp, file, si⟩ := MinecraftProfile.saveCurrentOrder_frame env
      ⟨(MinecraftProfile.reapply env { w.profile with
          VersionPatches :=
            (MinecraftProfile.revertLoop env w.profile.VersionPatches [] w.inst).2.1 }).state,
        (MinecraftProfile.revertLoop env w.profile.VersionPatches [] w.inst).2.2⟩
    rw [hr]
    refine ⟨?_, ?_⟩
    · show (MinecraftProfile.saveCurrentOrder env _).profile.VersionPatches = _
      rw [sp]
      simp only
      rw [MinecraftProfile.reapply_patches]
      simpa using hlist
    · intro p hp hm
      show (MinecraftProfile.saveCurrentOrder env _).inst.patchFile p.filename = none
      rw [si]
      exact hfiles p hp hm

/-- C15 on the installation with the jar mod: the two builtins remain. -/
theorem revert_to_vanilla_keeps_unmoveable_only_witness :
    (MinecraftProfile.revertToVanilla Sample.env Sample.installed).value = some true ∧
    (MinecraftProfile.revertToVanilla Sample.env Sample.installed).state.profile.VersionPatches
      = [Sample.minecraft.setOrder (-2), (Sample.lwjgl.setOrder (-1)).setVanilla true] :=
  ⟨by decide,
    (revert_to_vanilla_keeps_unmoveable_only Sample.env Sample.installed (by decide)).1.trans
      (by decide)⟩

/-- C16, the code at the failing input. The list holds the two builtins, the patches `a` and
`b` and two jar-mod patches whose jar mods `u.jar` and `uu.jar` are merged into the profile;
the patch file of the second jar-mod patch cannot be removed. `revertToVanilla` removes `a`,
`b` and the first jar-mod patch, deletes `uu.jar`, fails at the patch file and returns false.
The list that is left holds the builtins and the second jar-mod patch, but the merged
profile still lists `u.jar` and `uu.jar`: recomputing it from the list gives `uu.jar`
alone. -/
theorem failed_revert_does_not_reapply :
    Sample.twoJarMods.profile.VersionPatches.map (fun p => p.fileId)
      = ["net.minecraft", "org.lwjgl", "a", "b", "org.multimc.jarmod.u",
          "org.multimc.jarmod.uu"] ∧
    Sample.twoJarMods.profile.jarMods = ["u.jar", "uu.jar"] ∧
    (MinecraftProfile.revertToVanilla Sample.mergingEnv Sample.twoJarMods).value
      = some false ∧
    (MinecraftProfile.revertToVanilla Sample.mergingEnv
      Sample.twoJarMods).state.profile.VersionPatches.map (fun p => p.fileId)
      = ["net.minecraft", "org.lwjgl", "org.multimc.jarmod.uu"] ∧
    (MinecraftProfile.revertToVanilla Sample.mergingEnv Sample.twoJarMods).state.profile.jarMods
      = ["u.jar", "uu.jar"] ∧
    (MinecraftProfile.reapply Sample.mergingEnv
      (MinecraftProfile.revertToVanilla Sample.mergingEnv
        Sample.twoJarMods).state.profile).state.jarMods = ["uu.jar"] ∧
    (MinecraftProfile.revertToVanilla Sample.mergingEnv
      Sample.twoJarMods).state.inst.jarModExists "u.jar" = false := by
  refine ⟨by decide, by decide, by decide, by decide, by decide, by decide, by decide⟩

/-- C17. For a patch list whose order hints are all below the largest 32-bit signed integer,
`getFreeOrderNumber` returns the larger of 100 and the largest order hint of the list, plus
one; the result is at least 101 and greater than the order hint of every entry. -/
theorem free_order_number_is_max_plus_one (p : MinecraftProfile)
    (h : ∀ thing ∈ p.VersionPatches, thing.order < 2 ^ 31 - 1) :
    MinecraftProfile.getFreeOrderNumber p = largestOrderOr100 p.VersionPatches + 1 ∧
    101 ≤ MinecraftProfile.getFreeOrderNumber p ∧
    ∀ thing ∈ p.VersionPatches, thing.order < MinecraftProfile.getFreeOrderNumber p := by
  have hfold := foldl_largest_eq p.VersionPatches 100
  have hlow := le_foldr_max (p.VersionPatches.map (fun q => q.order)) 100
  have hhigh : (p.VersionPatches.map (fun q => q.order)).foldr max 100 ≤ 2 ^ 31 - 2 := by
    apply foldr_max_le
    · norm_num
    · intro y hy
      obtain ⟨q, hq, rfl⟩ := List.mem_map.1 hy
      have := h q hq
      omega
  have hval : MinecraftProfile.getFreeOrderNumber p = largestOrderOr100 p.VersionPatches + 1 := by
    unfold MinecraftProfile.getFreeOrderNumber largestOrderOr100 wrapInt32
    rw [hfold]
    have h1 := hlow.1
    norm_num at hhigh ⊢
    omega
  refine ⟨hval, ?_, ?_⟩
  · rw [hval]
    unfold largestOrderOr100
    have := hlow.1
    omega
  · intro thing hthing
    rw [hval]
    unfold largestOrderOr100
    have := hlow.2 thing.order (List.mem_map_of_mem (fun q => q.order) hthing)
    omega

/-- C17 on the loaded list of the concrete installation: the free order number is 101. -/
theorem free_order_number_is_max_plus_one_witness :
    (∀ thing ∈ Sample.world.profile.VersionPatches, thing.order < 2 ^ 31 - 1) ∧
    MinecraftProfile.getFreeOrderNumber Sample.world.profile = 101 ∧
    largestOrderOr100 Sample.world.profile.VersionPatches = 100 :=
  ⟨by decide,
    (by
      have h := (free_order_number_is_max_plus_one Sample.world.profile (by decide)).1
      rw [h]
      decide),
    by decide⟩

/-- C18, the code at the failing input. The order file lists `a` and `b`, the ids of the
moveable entries of the list. `installJarMods` is called with `mod.jar` and `missing.jar`,
and the copy of `missing.jar` fails: the call returns false, the list has gained the jar-mod
patch of `mod.jar`, and the order file still lists `a` and `b` only. -/
theorem failed_install_leaves_order_file_behind :
    VersionBuilder.userOrder Sample.missingSource.inst
      = MinecraftProfile.currentOrder Sample.env Sample.missingSource.profile ∧
    (OneSixProfileStrategy.installJarMods Sample.env Sample.missingSource
      ["mod.jar", "missing.jar"]).value = some false ∧
    MinecraftProfile.currentOrder Sample.env
      (OneSixProfileStrategy.installJarMods Sample.env Sample.missingSource
        ["mod.jar", "missing.jar"]).state.profile
      = ["a", "b", "org.multimc.jarmod.u"] ∧
    VersionBuilder.userOrder
      (OneSixProfileStrategy.installJarMods Sample.env Sample.missingSource
        ["mod.jar", "missing.jar"]).state.inst
      = ["a", "b"] := by
  refine ⟨by decide, by decide, by decide, by decide⟩

/-- C19. After `finalize` the asset index is not empty. When the date is not 1 April and the
asset index ends with `_af`, that suffix is removed once, and an empty remainder becomes
`legacy`. On 1 April, or when the asset index does not end with `_af`, it is kept as it is,
except that an empty asset index becomes `legacy`. -/
theorem finalize_asset_index (env : Collaborators) (p : MinecraftProfile) :
    (MinecraftProfile.finalize env p).assets ≠ "" ∧
    (¬ (env.currentDate.month = 4 ∧ env.currentDate.day = 1) →
      ∀ stem : String, p.assets = stem ++ "_af" →
        (MinecraftProfile.finalize env p).assets = if stem = "" then "legacy" else stem) ∧
    ((env.currentDate.month = 4 ∧ env.currentDate.day = 1) ∨
        ¬ (∃ stem : String, p.assets = stem ++ "_af") →
      (MinecraftProfile.finalize env p).assets
        = if p.assets = "" then "legacy" else p.assets) := by
  rw [MinecraftProfile.finalize_assets]
  refine ⟨?_, ?_, ?_⟩
  · split_ifs <;> first | decide | assumption
  · intro hdate stem hstem
    have hends : QString.endsWith p.assets "_af" = true :=
      (QString.endsWith_iff _ _).2 ⟨stem, hstem⟩
    have hleft : QString.left p.assets (p.assets.length - 3) = stem := by
      rw [hstem]
      exact QString.left_append stem "_af"
    have hinner : (if QString.endsWith p.assets "_af" = true ∧
          ¬ (env.currentDate.month = 4 ∧ env.currentDate.day = 1) then
        QString.left p.assets (p.assets.length - 3)
      else p.assets) = stem := by
      rw [if_pos ⟨hends, hdate⟩]
      exact hleft
    rw [hinner]
  · intro h
    have hcond : ¬ (QString.endsWith p.assets "_af" = true ∧
        ¬ (env.currentDate.month = 4 ∧ env.currentDate.day = 1)) := by
      rintro ⟨hends, hdate⟩
      rcases h with h | h
      · exact hdate h
      · exact h ((QString.endsWith_iff _ _).1 hends)
    have hinner : (if QString.endsWith p.assets "_af" = true ∧
          ¬ (env.currentDate.month = 4 ∧ env.currentDate.day = 1) then
        QString.left p.assets (p.assets.length - 3)
      else p.assets) = p.assets := if_neg hcond
    rw [hinner]

/-- C19 on an asset index `1.7.10_af` on 30 October: the suffix is removed. -/
theorem finalize_asset_index_witness :
    (MinecraftProfile.finalize Sample.env
      { Sample.emptyProfile with assets := "1.7.10_af" }).assets = "1.7.10" :=
  ((finalize_asset_index Sample.env { Sample.emptyProfile with assets := "1.7.10_af" }).2.1
    (by decide) "1.7.10" rfl).trans (by decide)

/-- C20. `finalize` leaves a launch-argument template that is not empty unchanged. An empty
template is set from the process-arguments preset, compared in lower case: `legacy`,
`username_session` and `username_session_version` give the three templates of the code, the
third being the second followed by the version argument, and every other preset name leaves
the template empty. The vanilla template is finalised from the vanilla preset in the same
way. -/
theorem finalize_launch_arguments (env : Collaborators) (p : MinecraftProfile) :
    FinalizedFromPreset env.toLower p.minecraftArguments p.processArguments
      (MinecraftProfile.finalize env p).minecraftArguments ∧
    FinalizedFromPreset env.toLower p.vanillaMinecraftArguments p.vanillaProcessArguments
      (MinecraftProfile.finalize env p).vanillaMinecraftArguments :=
  ⟨MinecraftProfile.finalizeArguments_spec env _ _,
    MinecraftProfile.finalizeArguments_spec env _ _⟩

/-- C20 on the preset `Legacy` with an empty template. -/
theorem finalize_launch_arguments_witness :
    (MinecraftProfile.finalize Sample.env
      { Sample.emptyProfile with processArguments := "Legacy" }).minecraftArguments
      = " $\x7bauth_player_name\x7d $\x7bauth_session\x7d" :=
  (finalize_launch_arguments Sample.env
    { Sample.emptyProfile with processArguments := "Legacy" }).1.2.1 rfl (by decide)

/-! ## The merged libraries and the Solder versions: claims -/

/-- C21, the code at the failing input. The library list holds the raw name
`org.lwjgl.lwjgl:lwjgl:2.9.1` twice, active and not native, then a native library, then an
inactive one. `getActiveNormalLibs` logs one warning for the raw name and returns both
occurrences: two returned libraries have the same raw name. -/
theorem active_normal_libs_keep_repeated_raw_name :
    (MinecraftProfile.getActiveNormalLibs Sample.doubledLibrary).1
      = [⟨"org.lwjgl.lwjgl:lwjgl:2.9.1", true, false⟩,
         ⟨"org.lwjgl.lwjgl:lwjgl:2.9.1", true, false⟩] ∧
    (MinecraftProfile.getActiveNormalLibs Sample.doubledLibrary).2
      = ["org.lwjgl.lwjgl:lwjgl:2.9.1"] ∧
    ¬ ((MinecraftProfile.getActiveNormalLibs Sample.doubledLibrary).1.map
        (fun lib => lib.rawName)).Nodup := by
  refine ⟨by decide, by decide, by decide⟩

/-- C22, the code at the failing input. The build `v1.0.2` of the pack `tekkitmain` is at
address 0, the build `1.0.3` at address 1. Before the comparison `url()` of the first ends
in `tekkitmain/v1.0.2`. After `operator<` called on it, and after `operator>` called on the
other build with it as the argument, its id is `1.0.2`: `name()`, `descriptor()` and
`url()` return other values than before. -/
theorem comparison_removes_leading_v_of_id (less greater : String → String → Bool) :
    (Sample.builds 0).id = "v1.0.2" ∧
    (Sample.builds 0).url = "http://solder.technicpack.net/api/modpack/tekkitmain/v1.0.2" ∧
    ((SolderVersion.operatorLess less Sample.builds 0 (.solder 1)).2 0).id = "1.0.2" ∧
    ((SolderVersion.operatorLess less Sample.builds 0 (.solder 1)).2 0).name = "1.0.2" ∧
    ((SolderVersion.operatorLess less Sample.builds 0 (.solder 1)).2 0).descriptor = "1.0.2" ∧
    ((SolderVersion.operatorLess less Sample.builds 0 (.solder 1)).2 0).url
      = "http://solder.technicpack.net/api/modpack/tekkitmain/1.0.2" ∧
    ((SolderVersion.operatorGreater greater Sample.builds 1 (.solder 0)).2 0).id = "1.0.2" ∧
    ((SolderVersion.operatorGreater greater Sample.builds 1 (.solder 0)).2 0).url
      = "http://solder.technicpack.net/api/modpack/tekkitmain/1.0.2" := by
  refine ⟨by decide, by decide, ?_, ?_, ?_, ?_, ?_, ?_⟩
  · rw [SolderVersion.operatorLess_objects]; decide
  · rw [SolderVersion.operatorLess_objects]; decide
  · rw [SolderVersion.operatorLess_objects]; decide
  · rw [SolderVersion.operatorLess_objects]; decide
  · rw [SolderVersion.operatorGreater_objects]; decide
  · rw [SolderVersion.operatorGreater_objects]; decide

end MultiMC
